import Mathlib

/-!
Verification of the InboxJanitor core: shallow embedding of the learning /
penalty engine, the classification pipeline, the resumable Gmail sync engine
and the deletion executor, with theorems about the claimed properties.

Conventions of the embedding:
* database tables are lists of row structures; a `select ... limit 1` is
  `List.find?`, an `update ... where` is a map over the rows matching the
  predicate (SQL updates every matching row), an `insert` appends;
* JavaScript numbers holding scores and penalties are modelled as `ℚ`
  (all values involved are small dyadic/decimal constants and exact ratios
  of small integers, where binary floating point agrees with the exact
  rational comparison);
* integer counters are `Nat` (they only ever grow by 1 from 0);
* wall-clock readings, external Gmail results and LLM replies are inputs
  (oracle functions), since they are produced outside the program;
* timestamp audit columns (`createdAt`, `updatedAt`, `startedAt`) that are
  written but never read by the verified code paths are elided.
-/

/-- Row of the SenderStats table (`src/lib/db`): per (googleAccountId, sender)
counters.  The schema has a unique index on (googleAccountId, sender). -/
structure SenderStat where
  userId : String
  googleAccountId : String
  sender : String
  totalCount : Nat
  deletedByAppCount : Nat
  manuallyDeletedCount : Nat
  manuallyKeptCount : Nat
  lastEmailAt : Option Nat
deriving Repr, DecidableEq

/-- Source function calculatePenalty of the learning module: keep-ratio step function.
Mirrors the source: total actions 0 gives 1.0; keepRatio ≥ 0.8 gives 0.5;
keepRatio ≥ 0.5 gives 0.75; otherwise 1.0. -/
def calculatePenalty (stat : SenderStat) : ℚ :=
  let totalActions :=
    stat.manuallyKeptCount + stat.deletedByAppCount + stat.manuallyDeletedCount
  if totalActions = 0 then 1
  else
    let keepRatio : ℚ := (stat.manuallyKeptCount : ℚ) / (totalActions : ℚ)
    if keepRatio ≥ 4/5 then 1/2
    else if keepRatio ≥ 1/2 then 3/4
    else 1

/-- Total user actions recorded on a SenderStats row: the three decision
counters that feed the keep ratio. -/
def totalActions (st : SenderStat) : Nat :=
  st.manuallyKeptCount + st.deletedByAppCount + st.manuallyDeletedCount

/-- JavaScript `Map.set`: replace the value of an existing key in place,
otherwise append the new entry. -/
def mapSet (m : List (String × ℚ)) (k : String) (v : ℚ) : List (String × ℚ) :=
  match m with
  | [] => [(k, v)]
  | (k', v') :: rest => if k' == k then (k', v) :: rest else (k', v') :: mapSet rest k v

/-- JavaScript `Map.get` (as an `Option`). -/
def mapLookup (m : List (String × ℚ)) (k : String) : Option ℚ :=
  match m with
  | [] => none
  | (k', v) :: rest => if k' == k then some v else mapLookup rest k

/-- Source function getSenderPenalty: single lookup.  Returns 1.0 when there is no row or
the row's totalCount is 0, otherwise `calculatePenalty` of the first row
matching (googleAccountId, sender). -/
def getSenderPenalty (sdb : List SenderStat) (googleAccountId sender : String) : ℚ :=
  match sdb.find? (fun st => st.googleAccountId == googleAccountId && st.sender == sender) with
  | none => 1
  | some st => if st.totalCount = 0 then 1 else calculatePenalty st

/-- Source function getBatchSenderPenalties: one query for all rows whose sender is in the
list, then `calculatePenalty` per returned row, then 1.0 filled in for the
senders that had no row.  Note: unlike `getSenderPenalty`, no `totalCount = 0`
short-circuit is applied to the returned rows. -/
def getBatchSenderPenalties (sdb : List SenderStat) (googleAccountId : String)
    (senders : List String) : List (String × ℚ) :=
  if senders = [] then []
  else
    let stats := sdb.filter
      (fun st => st.googleAccountId == googleAccountId && senders.contains st.sender)
    let penaltyMap := stats.foldl (fun m st => mapSet m st.sender (calculatePenalty st)) []
    senders.foldl
      (fun m sender => if (mapLookup m sender).isSome then m else mapSet m sender 1)
      penaltyMap

/-- Row of the Message table: one row per (googleAccountId, gmailMessageId).
The AI columns that the verified paths never read are elided. -/
structure Message where
  id : String
  userId : String
  googleAccountId : String
  gmailMessageId : String
  gmailThreadId : String
  sender : String
  senderName : Option String
  subject : String
  snippet : String
  internalDate : Nat
  labels : List String
  hasUserReplied : Bool
  isDeleteCandidate : Bool
  isDeletedByApp : Bool
  isManuallyKept : Bool
  isManuallyDeleted : Bool
  lastSyncedAt : Nat
deriving Repr, DecidableEq

/-- SQL `update messages set ... where messages.id = id`: rewrite every row
whose id matches (ids are unique in practice, making this the single row). -/
def updateMessageRow (mdb : List Message) (id : String) (f : Message → Message) :
    List Message :=
  mdb.map (fun m => if m.id == id then f m else m)

/-- SQL `update senderStats set ... where senderStats.id = existing.id` after
an `existing` row was selected (limit 1) by (googleAccountId, sender): the
row ids are unique, so this updates exactly the first matching row. -/
def updateFirstStat (sdb : List SenderStat) (googleAccountId sender : String)
    (f : SenderStat → SenderStat) : List SenderStat :=
  match sdb with
  | [] => []
  | st :: rest =>
    if st.googleAccountId == googleAccountId && st.sender == sender then f st :: rest
    else st :: updateFirstStat rest googleAccountId sender f

/-- Source function recordDeletion of the learning module: looks up the message to find
its googleAccountId (returning unchanged when absent), then increments
deletedByAppCount of the sender row, creating it at totalCount 1 if absent. -/
def recordDeletion (userId messageId sender : String) (mdb : List Message)
    (sdb : List SenderStat) : List SenderStat :=
  match mdb.find? (fun m => m.id == messageId) with
  | none => sdb
  | some message =>
    let googleAccountId := message.googleAccountId
    match sdb.find? (fun st => st.googleAccountId == googleAccountId && st.sender == sender) with
    | some _ =>
      updateFirstStat sdb googleAccountId sender
        (fun st => { st with deletedByAppCount := st.deletedByAppCount + 1 })
    | none =>
      sdb ++ [{ userId := userId, googleAccountId := googleAccountId, sender := sender,
                totalCount := 1, deletedByAppCount := 1, manuallyDeletedCount := 0,
                manuallyKeptCount := 0, lastEmailAt := none }]

/-- Source function recordManualDeletion: same shape, incrementing manuallyDeletedCount. -/
def recordManualDeletion (userId messageId sender : String) (mdb : List Message)
    (sdb : List SenderStat) : List SenderStat :=
  match mdb.find? (fun m => m.id == messageId) with
  | none => sdb
  | some message =>
    let googleAccountId := message.googleAccountId
    match sdb.find? (fun st => st.googleAccountId == googleAccountId && st.sender == sender) with
    | some _ =>
      updateFirstStat sdb googleAccountId sender
        (fun st => { st with manuallyDeletedCount := st.manuallyDeletedCount + 1 })
    | none =>
      sdb ++ [{ userId := userId, googleAccountId := googleAccountId, sender := sender,
                totalCount := 1, deletedByAppCount := 0, manuallyDeletedCount := 1,
                manuallyKeptCount := 0, lastEmailAt := none }]

/-- Source function recordKeep: same shape, incrementing manuallyKeptCount. -/
def recordKeep (userId messageId sender : String) (mdb : List Message)
    (sdb : List SenderStat) : List SenderStat :=
  match mdb.find? (fun m => m.id == messageId) with
  | none => sdb
  | some message =>
    let googleAccountId := message.googleAccountId
    match sdb.find? (fun st => st.googleAccountId == googleAccountId && st.sender == sender) with
    | some _ =>
      updateFirstStat sdb googleAccountId sender
        (fun st => { st with manuallyKeptCount := st.manuallyKeptCount + 1 })
    | none =>
      sdb ++ [{ userId := userId, googleAccountId := googleAccountId, sender := sender,
                totalCount := 1, deletedByAppCount := 0, manuallyDeletedCount := 0,
                manuallyKeptCount := 1, lastEmailAt := none }]

/-- Input shape for classification (`EmailInput` in classify-emails). -/
structure EmailInput where
  gmailMessageId : String
  sender : String
  subject : String
  snippet : String
  labels : List String
  hasUserReplied : Bool
  senderFrequency : Nat
  googleAccountId : String
deriving Repr, DecidableEq

/-- One element of the `classifications` array returned by the external
model, before normalization (category still free text). -/
structure RawClassification where
  gmailMessageId : String
  category : String
  deleteScore : ℚ
  reason : String
deriving Repr, DecidableEq

/-- Output type ClassificationResult: category is one of the seven enum strings. -/
structure ClassificationResult where
  gmailMessageId : String
  category : String
  deleteScore : ℚ
  reason : String
deriving Repr, DecidableEq

/-- JavaScript `s.toLowerCase()`: lowercase character by character (the
categories exercised are ASCII, where this agrees with JS). -/
def toLowerCase (s : String) : String :=
  ⟨s.data.map Char.toLower⟩

/-- JavaScript substring test `s.includes(sub)` on character lists. -/
def containsSub (sub : List Char) : List Char → Bool
  | [] => sub.isEmpty
  | c :: rest => sub.isPrefixOf (c :: rest) || containsSub sub rest

/-- JavaScript `lower.includes(keyword)`. -/
def strIncludes (s sub : String) : Bool :=
  containsSub sub.data s.data

/-- The inline list of category strings `normalizeCategory` checks the
lowercased model output against.  Note the camel-cased "spamLike" entry:
a lowercased input can never equal it. -/
def validCategories : List String :=
  ["personal", "work", "receipt", "promo", "notification", "spamLike", "unknown"]

/-- The seven-member closed category enum of `ClassificationResult` (and of
the zod output schema). -/
def categoryEnum : List String :=
  ["unknown", "personal", "work", "receipt", "promo", "notification", "spamLike"]

/-- Source function normalizeCategory (local to classifyChunk): lowercase the model category,
pass it through when it is in the inline list, otherwise remap by keyword,
defaulting to "unknown". -/
def normalizeCategory (category : String) : String :=
  let lower := toLowerCase category
  if validCategories.contains lower then lower
  else if strIncludes lower "important" || strIncludes lower "urgent" ||
      strIncludes lower "critical" then "work"
  else if strIncludes lower "newsletter" || strIncludes lower "marketing" then "promo"
  else if strIncludes lower "alert" || strIncludes lower "reminder" then "notification"
  else "unknown"

/-- JavaScript `x || dflt` on an optional number (`0` is falsy). -/
def jsOr (x : Option ℚ) (dflt : ℚ) : ℚ :=
  match x with
  | some v => if v = 0 then dflt else v
  | none => dflt

/-- The per-result mapping of `classifyChunk`'s success branch: look up the
email for the returned id, fetch its sender penalty (|| 1.0), normalize the
category, multiply the score by the penalty capping at 1.0, and append the
adjustment note when the penalty is below 1.0. -/
def adjustClassification (senderPenalties : List (String × ℚ)) (emails : List EmailInput)
    (c : RawClassification) : ClassificationResult :=
  let penalty :=
    match emails.find? (fun e => e.gmailMessageId == c.gmailMessageId) with
    | some email => jsOr (mapLookup senderPenalties email.sender) 1
    | none => 1
  let normalizedCategory := normalizeCategory c.category
  let adjustedDeleteScore := c.deleteScore * penalty
  { gmailMessageId := c.gmailMessageId
    category := normalizedCategory
    deleteScore := min 1 adjustedDeleteScore
    reason :=
      if penalty < 1 then
        c.reason ++ " (Adjusted based on user's keep pattern for this sender)"
      else c.reason }

/-- JavaScript spread of a Set, first-occurrence deduplication. -/
def uniqueFirst (l : List String) : List String :=
  l.foldl (fun acc s => if acc.contains s then acc else acc ++ [s]) []

/-- Source function classifyChunk: batch-fetch the sender penalties for the chunk's unique
senders, submit the chunk to the external model, and post-process its reply.
The model call (prompt construction included) is the oracle `llm`; a reply
the oracle delivers stands for a schema-validated `generateObject` result
(the raw-text recovery fallback parses into the same shape), and an oracle
error stands for the call throwing, which `classifyChunk` re-throws. -/
def classifyChunk (sdb : List SenderStat)
    (llm : List EmailInput → Except Unit (List RawClassification))
    (emails : List EmailInput) : Except Unit (List ClassificationResult) :=
  let uniqueSenders := uniqueFirst (emails.map (fun e => e.sender))
  let googleAccountId :=
    match emails.head? with
    | some e => e.googleAccountId
    | none => ""
  let senderPenalties := getBatchSenderPenalties sdb googleAccountId uniqueSenders
  match llm emails with
  | .error u => .error u
  | .ok object => .ok (object.map (adjustClassification senderPenalties emails))

/-- Chunk size for batching emails (50 per model call). -/
def CHUNK_SIZE : Nat := 50

/-- The chunk-splitting loop of `classifyEmailsForDeletion`:
`for (i = 0; i < emails.length; i += CHUNK_SIZE) chunks.push(slice(i, i+CHUNK_SIZE))`. -/
def chunkEmails (emails : List EmailInput) : List (List EmailInput) :=
  if h : emails = [] then []
  else emails.take CHUNK_SIZE :: chunkEmails (emails.drop CHUNK_SIZE)
termination_by emails.length
decreasing_by
  simp only [List.length_drop]
  have hpos : 0 < emails.length := List.length_pos.mpr h
  simp only [CHUNK_SIZE]
  omega

/-- Default result written for every message of a chunk whose classification
threw. -/
def defaultResult (email : EmailInput) : ClassificationResult :=
  { gmailMessageId := email.gmailMessageId, category := "unknown",
    deleteScore := 0, reason := "Classification failed" }

/-- Source function classifyEmailsForDeletion: split into chunks, classify each chunk
(concurrently in the source; chunk results are independent and concatenated
in chunk order, so the sequential model is equivalent), degrade a failed
chunk to default results. -/
def classifyEmailsForDeletion (sdb : List SenderStat)
    (llm : List EmailInput → Except Unit (List RawClassification))
    (emails : List EmailInput) : List ClassificationResult :=
  let chunks := chunkEmails emails
  let chunkResults := chunks.map (fun chunk =>
    match classifyChunk sdb llm chunk with
    | .ok rs => rs
    | .error _ => chunk.map defaultResult)
  chunkResults.flatten

/-- The whitespace class of the JavaScript regex `\s` and of `trim()`
(ASCII portion; the headers exercised are ASCII). -/
def jsWhitespace (c : Char) : Bool :=
  c = ' ' || c = '\t' || c = '\n' || c = '\r' || c = '\x0b' || c = '\x0c'

/-- Characters the JavaScript regex `.` does not match. -/
def isNewlineChar (c : Char) : Bool :=
  c = '\n' || c = '\r'

/-- JavaScript `String.prototype.trim`. -/
def jsTrim (cs : List Char) : List Char :=
  ((cs.dropWhile jsWhitespace).reverse.dropWhile jsWhitespace).reverse

/-- Capture group 1 of `^(.+?)\s*<(.+?)>$` for the prefix before a candidate
`<`: the lazy group takes the minimal nonempty prefix, so the whitespace run
before the `<` is eaten by `\s*` — unless the whole prefix is whitespace, in
which case the group must still take one character. -/
def angleGroup1 (pre : List Char) : List Char :=
  let core := (pre.reverse.dropWhile jsWhitespace).reverse
  if core.isEmpty then pre.take 1 else core

/-- Whether `^(.+?)\s*<(.+?)>$` matches with the `<` at the current split:
`pre` is everything before the `<`, `rest` everything after it.  The lazy
second group backtracks to the final `>` (anchored by `$`), both groups must
be nonempty and `.`-matchable (no newlines). -/
def angleOk (pre rest : List Char) : Bool :=
  !pre.isEmpty &&
  rest.getLast? == some '>' &&
  !rest.dropLast.isEmpty &&
  rest.dropLast.all (fun c => !isNewlineChar c) &&
  (angleGroup1 pre).all (fun c => !isNewlineChar c)

/-- Scan for the first `<` at which the angle alternative of the sender
regex matches (the lazy first group makes the regex engine try the `<`
positions left to right). -/
def findSplit (pre : List Char) : List Char → Option (List Char × List Char)
  | [] => none
  | c :: rest =>
    if c = '<' && angleOk pre rest then some (angleGroup1 pre, rest.dropLast)
    else findSplit (pre ++ [c]) rest

/-- Source function parseSender of the gmail-client module: match the From header
against `^(.+?)\s*<(.+?)>$|^(.+?)$`.  The second alternative and the
fallback branch produce the same result (the whole header trimmed, no
name), so they are modelled together.  An empty trimmed name becomes null
(`match[1].trim() || null`). -/
def parseSender (fromHeader : String) : String × Option String :=
  match findSplit [] fromHeader.data with
  | some (g1, g2) =>
    let name : String := ⟨jsTrim g1⟩
    (⟨jsTrim g2⟩, if name = "" then none else some name)
  | none => (⟨jsTrim fromHeader.data⟩, none)

/-- SyncProgress status enum. -/
inductive SyncStatus where
  | pending
  | in_progress
  | completed
  | failed
  | timeout_
deriving Repr, DecidableEq

/-- Row of the SyncProgress table (wall-clock audit columns elided). -/
structure SyncProgressRow where
  id : String
  userId : String
  googleAccountId : String
  status : SyncStatus
  totalMessages : Nat
  processedMessages : Nat
  created : Nat
  updated : Nat
  errors : Nat
  nextPageToken : Option String
  errorMessage : Option String
  completedAt : Option Nat
deriving Repr, DecidableEq

/-- One entry of the Gmail `messages.list` reply. -/
structure GmailRef where
  id : String
  threadId : String
deriving Repr, DecidableEq

/-- Reply of `listMessages`. -/
structure ListResult where
  messages : List GmailRef
  nextPageToken : Option String
deriving Repr, DecidableEq

/-- Reply of `getMessageMetadata` (the headers map restricted to the two
header names the sync path reads; a missing header is `none`). -/
structure MsgMetadata where
  id : String
  threadId : String
  snippet : String
  internalDate : Nat
  labels : List String
  headersFrom : Option String
  headersSubject : Option String
deriving Repr, DecidableEq

/-- External world of one sync invocation: the Gmail page fetched with the
stored continuation token, the per-message metadata fetch (an error stands
for the call throwing, which the per-item catch absorbs), the thread-reply
check (it swallows its own errors and returns false), the elapsed
wall-clock reading `Date.now() - startTime` taken at the timeout check
before the i-th processed item, the database's uuid source for inserted
message rows (indexed by the running created counter), and the completion
timestamp. -/
structure SyncInputs where
  page : ListResult
  meta : String → Except Unit MsgMetadata
  threadReply : String → Bool
  clock : Nat → Nat
  freshId : Nat → String
  now : Nat

/-- Messages to process per chunk. -/
def MESSAGES_PER_CHUNK : Nat := 50

/-- Maximum messages to fetch per Gmail API call. -/
def MAX_MESSAGES_PER_API_CALL : Nat := 500

/-- Days to look back for messages. -/
def DAYS_TO_SYNC : Nat := 90

/-- Timeout safety margin (seconds) before the 300s platform ceiling. -/
def TIMEOUT_SAFETY_MARGIN : Nat := 50

/-- The budget (300 - TIMEOUT_SAFETY_MARGIN) * 1000 in milliseconds. -/
def maxExecutionTime : Nat := (300 - TIMEOUT_SAFETY_MARGIN) * 1000

/-- JSON body of a sync POST response (error responses are out of the
modelled happy path); absent JSON fields are `none`. -/
structure SyncResponse where
  success : Bool
  synced : Nat
  created : Nat
  updated : Nat
  errors : Nat
  message : String
  hasMore : Option Bool
  progress : Option Nat
deriving Repr, DecidableEq

/-- JavaScript Math.round((processed / totalMessages) * 100) for a nonnegative exact
ratio: round half up is `(200p + t) / (2t)` in integer division. -/
def progressPercent (processed totalMessages : Nat) : Nat :=
  if totalMessages > 0 then (200 * processed + totalMessages) / (2 * totalMessages) else 0

/-- State carried through the per-item loop of the sync POST: the
SyncProgress row as currently stored, every stored snapshot of it (the
trace, oldest first), the two tables, and the local counter variables. -/
structure LoopSt where
  row : SyncProgressRow
  trace : List SyncProgressRow
  messagesDb : List Message
  senderStatsDb : List SenderStat
  created : Nat
  updated : Nat
  errors : Nat
  processed : Nat
  processedInThisBatch : Nat
deriving Repr, DecidableEq

/-- Source helper updateSenderStats of the sync route: bump totalCount and
lastEmailAt, creating the row at totalCount 1 if absent. -/
def updateSenderStats (userId googleAccountId sender : String) (lastEmailAt : Nat)
    (sdb : List SenderStat) : List SenderStat :=
  match sdb.find? (fun st => st.googleAccountId == googleAccountId && st.sender == sender) with
  | some _ =>
    updateFirstStat sdb googleAccountId sender
      (fun st => { st with totalCount := st.totalCount + 1, lastEmailAt := some lastEmailAt })
  | none =>
    sdb ++ [{ userId := userId, googleAccountId := googleAccountId, sender := sender,
              totalCount := 1, deletedByAppCount := 0, manuallyDeletedCount := 0,
              manuallyKeptCount := 0, lastEmailAt := some lastEmailAt }]

/-- Tail of each successful per-item iteration: `processed++`,
`processedInThisBatch++`, and the every-10-messages progress persist (which
stores the four counters but not the token). -/
def syncAfterItem (s : LoopSt) : LoopSt :=
  let s' := { s with processed := s.processed + 1,
                     processedInThisBatch := s.processedInThisBatch + 1 }
  if s'.processedInThisBatch % 10 = 0 then
    let r := { s'.row with
               processedMessages := s'.processed
               created := s'.created
               updated := s'.updated
               errors := s'.errors }
    { s' with row := r, trace := s'.trace ++ [r] }
  else s'

/-- Body of one per-item iteration of the sync POST (after the timeout
check): fetch metadata (a failure lands in the catch: `errors++;
processed++`), parse the sender, check the thread, then upsert the Message
row — update in place if (googleAccountId, gmailMessageId) exists, else
insert and bump the sender statistics. -/
def syncItemStep (inp : SyncInputs) (userId accountId : String) (ref : GmailRef)
    (s : LoopSt) : LoopSt :=
  match inp.meta ref.id with
  | .error _ =>
    { s with errors := s.errors + 1, processed := s.processed + 1 }
  | .ok metadata =>
    let fromHeader := metadata.headersFrom.getD ""
    let parsed := parseSender fromHeader
    let senderEmail := parsed.1
    let senderName := parsed.2
    let hasUserReplied := inp.threadReply metadata.threadId
    let internalDate := metadata.internalDate
    match s.messagesDb.find?
        (fun m => m.googleAccountId == accountId && m.gmailMessageId == metadata.id) with
    | some existing =>
      let mdb := updateMessageRow s.messagesDb existing.id (fun m =>
        { m with gmailThreadId := metadata.threadId, sender := senderEmail,
                 senderName := senderName, subject := metadata.headersSubject.getD "",
                 snippet := metadata.snippet, internalDate := internalDate,
                 labels := metadata.labels, hasUserReplied := hasUserReplied,
                 lastSyncedAt := inp.now })
      syncAfterItem { s with messagesDb := mdb, updated := s.updated + 1 }
    | none =>
      let newMessage : Message :=
        { id := inp.freshId s.created, userId := userId, googleAccountId := accountId,
          gmailMessageId := metadata.id, gmailThreadId := metadata.threadId,
          sender := senderEmail, senderName := senderName,
          subject := metadata.headersSubject.getD "", snippet := metadata.snippet,
          internalDate := internalDate, labels := metadata.labels,
          hasUserReplied := hasUserReplied, isDeleteCandidate := false,
          isDeletedByApp := false, isManuallyKept := false, isManuallyDeleted := false,
          lastSyncedAt := inp.now }
      let sdb := updateSenderStats userId accountId senderEmail internalDate s.senderStatsDb
      syncAfterItem { s with messagesDb := s.messagesDb ++ [newMessage],
                             senderStatsDb := sdb, created := s.created + 1 }

/-- The early return taken when the time budget is exceeded: persist the
four counters plus the continuation token and answer success with
`hasMore: !!nextPageToken`. -/
def timeoutExit (nextPageToken : Option String) (totalMessages : Nat) (s : LoopSt) :
    LoopSt × SyncResponse :=
  let r := { s.row with
             processedMessages := s.processed
             created := s.created
             updated := s.updated
             errors := s.errors
             nextPageToken := nextPageToken }
  ({ s with row := r, trace := s.trace ++ [r] },
   { success := true, synced := s.processed, created := s.created, updated := s.updated,
     errors := s.errors,
     message := "Sync in progress - processing in chunks to avoid timeout",
     hasMore := some nextPageToken.isSome,
     progress := some (progressPercent s.processed totalMessages) })

/-- The `for (const msg of messagesToProcess)` loop: before each item,
compare the elapsed time against the budget and return early when it is
exceeded; otherwise process the item and continue.  `i` indexes the clock
readings. -/
def syncLoop (inp : SyncInputs) (userId accountId : String)
    (nextPageToken : Option String) (totalMessages : Nat) :
    List GmailRef → Nat → LoopSt → LoopSt ⊕ (LoopSt × SyncResponse)
  | [], _, s => Sum.inl s
  | ref :: rest, i, s =>
    if inp.clock i > maxExecutionTime then
      Sum.inr (timeoutExit nextPageToken totalMessages s)
    else
      syncLoop inp userId accountId nextPageToken totalMessages rest (i + 1)
        (syncItemStep inp userId accountId ref s)

/-- Resume-or-create step of the sync POST: an existing `in_progress` row is
resumed with its stored counters and token; otherwise a fresh row is
inserted with status `in_progress` and zero counters. -/
def startSync (existingSync : Option SyncProgressRow) (userId accountId newId : String) :
    SyncProgressRow × Bool :=
  match existingSync with
  | some row => (row, true)
  | none =>
    ({ id := newId, userId := userId, googleAccountId := accountId,
       status := SyncStatus.in_progress, totalMessages := 0, processedMessages := 0,
       created := 0, updated := 0, errors := 0, nextPageToken := none,
       errorMessage := none, completedAt := none }, false)

/-- The sync POST from the point where the Gmail page arrived (the earlier
auth / listing error branches return before any of this state is touched):
empty page marks the run completed; otherwise process the first
MESSAGES_PER_CHUNK ids under the time budget, persist counters and token,
and either report `hasMore: true` (token present, status untouched) or mark
the run completed. -/
def runSyncChunk (inp : SyncInputs) (userId accountId : String)
    (progressRecord : SyncProgressRow) (isResuming : Bool)
    (mdb : List Message) (sdb : List SenderStat) : LoopSt × SyncResponse :=
  let nextPageToken := inp.page.nextPageToken
  let gmailMessages := inp.page.messages
  let totalMessages :=
    if !isResuming && progressRecord.totalMessages == 0 then gmailMessages.length
    else progressRecord.totalMessages
  if gmailMessages.isEmpty then
    let r := { progressRecord with
               status := SyncStatus.completed
               completedAt := some inp.now }
    ({ row := r, trace := [r], messagesDb := mdb, senderStatsDb := sdb,
       created := progressRecord.created, updated := progressRecord.updated,
       errors := progressRecord.errors, processed := progressRecord.processedMessages,
       processedInThisBatch := 0 },
     { success := true, synced := progressRecord.processedMessages,
       created := progressRecord.created, updated := progressRecord.updated,
       errors := progressRecord.errors, message := "Sync completed",
       hasMore := none, progress := none })
  else
    let messagesToProcess := gmailMessages.take MESSAGES_PER_CHUNK
    let s0 : LoopSt := { row := progressRecord, trace := [], messagesDb := mdb,
                         senderStatsDb := sdb, created := progressRecord.created,
                         updated := progressRecord.updated, errors := progressRecord.errors,
                         processed := progressRecord.processedMessages,
                         processedInThisBatch := 0 }
    match syncLoop inp userId accountId nextPageToken totalMessages messagesToProcess 0 s0 with
    | Sum.inr (s, resp) => (s, resp)
    | Sum.inl s =>
      let r := { s.row with
                 processedMessages := s.processed
                 created := s.created
                 updated := s.updated
                 errors := s.errors
                 nextPageToken := nextPageToken }
      let s1 := { s with row := r, trace := s.trace ++ [r] }
      match nextPageToken with
      | some _ =>
        (s1, { success := true, synced := s.processed, created := s.created,
               updated := s.updated, errors := s.errors,
               message := "Sync in progress - more messages to process",
               hasMore := some true,
               progress := some (progressPercent s.processed totalMessages) })
      | none =>
        let r2 := { s1.row with
                    status := SyncStatus.completed
                    completedAt := some inp.now }
        ({ s1 with row := r2, trace := s1.trace ++ [r2] },
         { success := true, synced := s.processed, created := s.created,
           updated := s.updated, errors := s.errors, message := "Sync completed",
           hasMore := none, progress := none })

/-- The reconciliation equation on a stored SyncProgress row. -/
def rowCounterEq (r : SyncProgressRow) : Prop :=
  r.processedMessages = r.created + r.updated + r.errors

/-- Loop invariant: the running counters reconcile, and so do the stored row
and every persisted snapshot. -/
def loopInv (s : LoopSt) : Prop :=
  s.processed = s.created + s.updated + s.errors ∧ rowCounterEq s.row ∧
    ∀ r ∈ s.trace, rowCounterEq r

/-- A one-message last page (no continuation token), ample time budget:
metadata fetch failing keeps the run tiny. -/
def syncFixtureLastPage : SyncInputs :=
  { page := { messages := [⟨"m1", "t1"⟩], nextPageToken := none },
    meta := fun _ => Except.error (),
    threadReply := fun _ => false,
    clock := fun _ => 0,
    freshId := fun _ => "id0",
    now := 7 }

/-- A one-message page with a continuation token and an exhausted budget. -/
def syncFixtureTimeout : SyncInputs :=
  { page := { messages := [⟨"m1", "t1"⟩], nextPageToken := some "tok" },
    meta := fun _ => Except.error (),
    threadReply := fun _ => false,
    clock := fun _ => 300000,
    freshId := fun _ => "id0",
    now := 7 }

/-- A one-message page with a continuation token and ample budget. -/
def syncFixtureMorePages : SyncInputs :=
  { page := { messages := [⟨"m1", "t1"⟩], nextPageToken := some "tok2" },
    meta := fun _ => Except.error (),
    threadReply := fun _ => false,
    clock := fun _ => 0,
    freshId := fun _ => "id0",
    now := 7 }

/-- Decision column of a DeleteBatchItem. -/
inductive DeleteDecision where
  | deleted
  | skipped
  | error
deriving Repr, DecidableEq

/-- Status column of a DeleteBatch. -/
inductive BatchStatus where
  | pending
  | completed
  | failed
deriving Repr, DecidableEq

/-- Row of the DeleteBatch audit table. -/
structure DeleteBatchRow where
  id : String
  userId : String
  googleAccountId : String
  totalCandidates : Nat
  totalDeleted : Nat
  status : BatchStatus
  errorMessage : Option String
  finishedAt : Option Nat
deriving Repr, DecidableEq

/-- Row of the DeleteBatchItem audit table. -/
structure DeleteBatchItemRow where
  deleteBatchId : String
  messageId : String
  gmailMessageId : String
  decision : DeleteDecision
  reason : Option String
deriving Repr, DecidableEq

/-- Calls issued to the learning module during a confirm-delete run. -/
inductive LearnEvent where
  | deletionRecorded (userId messageId sender : String)
  | keepRecorded (userId messageId sender : String)
deriving Repr, DecidableEq

/-- Projection of `allCandidates` (`select id, gmailMessageId, sender`). -/
structure CandidateRef where
  id : String
  gmailMessageId : String
  sender : String
deriving Repr, DecidableEq

/-- State threaded through the confirm-delete POST: the two tables, the
appended batch items, the learning calls issued, and the local counters. -/
structure ConfirmRunState where
  messagesDb : List Message
  senderStatsDb : List SenderStat
  items : List DeleteBatchItemRow
  events : List LearnEvent
  deletedCount : Nat
  skippedCount : Nat
  errorCount : Nat
  errors : List String
deriving Repr, DecidableEq

/-- JSON body of the non-streaming confirm-delete response. -/
structure ConfirmResponse where
  success : Bool
  deleted : Nat
  skipped : Nat
  errors : Nat
  errorMessages : List String
  batchId : String
deriving Repr, DecidableEq

/-- The `allCandidates` query of the confirm-delete POST. -/
def allCandidatesOf (mdb : List Message) (userId accountId : String) :
    List CandidateRef :=
  (mdb.filter (fun m => m.userId == userId && m.googleAccountId == accountId &&
      m.isDeleteCandidate && !m.isDeletedByApp)).map
    (fun m => { id := m.id, gmailMessageId := m.gmailMessageId, sender := m.sender })

/-- One iteration of the selected-id loop (non-streaming path): missing id
counts an error; an already-deleted row is skipped; otherwise trash the
message (the oracle errors stand for the adapter throwing), mark the row
deleted, record the deletion, and append a `deleted` batch item; the catch
branch counts the error, re-reads the row and appends an `error` item, and
the loop continues with the next id. -/
def confirmDeleteStep (userId batchId : String) (trash : String → Except String Unit)
    (st : ConfirmRunState) (messageId : String) : ConfirmRunState :=
  match st.messagesDb.find? (fun m => m.id == messageId) with
  | none =>
    { st with errors := st.errors ++ ["Message " ++ messageId ++ " not found"],
              errorCount := st.errorCount + 1 }
  | some message =>
    if message.isDeletedByApp then
      { st with skippedCount := st.skippedCount + 1 }
    else
      match trash message.gmailMessageId with
      | .ok _ =>
        let mdb := updateMessageRow st.messagesDb messageId
          (fun m => { m with isDeletedByApp := true, isManuallyDeleted := true })
        let sdb := recordDeletion userId messageId message.sender mdb st.senderStatsDb
        { st with messagesDb := mdb, senderStatsDb := sdb,
                  events := st.events ++
                    [LearnEvent.deletionRecorded userId messageId message.sender],
                  items := st.items ++
                    [{ deleteBatchId := batchId, messageId := message.id,
                       gmailMessageId := message.gmailMessageId,
                       decision := DeleteDecision.deleted, reason := none }],
                  deletedCount := st.deletedCount + 1 }
      | .error e =>
        let st' := { st with
                     errors := st.errors ++
                       ["Failed to delete " ++ messageId ++ ": " ++ e]
                     errorCount := st.errorCount + 1 }
        match st'.messagesDb.find? (fun m => m.id == messageId) with
        | some m2 =>
          { st' with items := st'.items ++
              [{ deleteBatchId := batchId, messageId := m2.id,
                 gmailMessageId := m2.gmailMessageId,
                 decision := DeleteDecision.error, reason := some e }] }
        | none => st'

/-- One iteration of the deselected-candidates loop: mark the row manually
kept and no longer a candidate, re-read it to record the keep, and append a
`skipped` batch item. -/
def keepCandidateStep (userId batchId : String) (st : ConfirmRunState)
    (candidate : CandidateRef) : ConfirmRunState :=
  let mdb1 := updateMessageRow st.messagesDb candidate.id
    (fun m => { m with isManuallyKept := true, isDeleteCandidate := false })
  let st1 := { st with messagesDb := mdb1 }
  let st2 :=
    match st1.messagesDb.find? (fun m => m.id == candidate.id) with
    | some m =>
      { st1 with
        senderStatsDb :=
          recordKeep userId candidate.id m.sender st1.messagesDb st1.senderStatsDb
        events := st1.events ++ [LearnEvent.keepRecorded userId candidate.id m.sender] }
    | none => st1
  { st2 with items := st2.items ++
      [{ deleteBatchId := batchId, messageId := candidate.id,
         gmailMessageId := candidate.gmailMessageId,
         decision := DeleteDecision.skipped, reason := some "User deselected" }] }

/-- The confirm-delete POST (non-streaming path), from request validation to
the finalized batch row and JSON response.  `none` models the 400 rejection
of an empty id list. -/
def confirmDeletePOST (userId accountId batchId : String) (messageIds : List String)
    (trash : String → Except String Unit) (now : Nat)
    (mdb : List Message) (sdb : List SenderStat) :
    Option (ConfirmRunState × DeleteBatchRow × ConfirmResponse) :=
  if messageIds = [] then none
  else
    let allCandidates := allCandidatesOf mdb userId accountId
    let deleteBatch : DeleteBatchRow :=
      { id := batchId, userId := userId, googleAccountId := accountId,
        totalCandidates := allCandidates.length, totalDeleted := 0,
        status := BatchStatus.pending, errorMessage := none, finishedAt := none }
    let st0 : ConfirmRunState :=
      { messagesDb := mdb, senderStatsDb := sdb, items := [], events := [],
        deletedCount := 0, skippedCount := 0, errorCount := 0, errors := [] }
    let st1 := messageIds.foldl (confirmDeleteStep userId batchId trash) st0
    let deselectedCandidates := allCandidates.filter
      (fun c => !(messageIds.contains c.id))
    let st2 := deselectedCandidates.foldl (keepCandidateStep userId batchId) st1
    let status :=
      if st2.errorCount > 0 && st2.deletedCount == 0 then BatchStatus.failed
      else BatchStatus.completed
    some (st2,
      { deleteBatch with
        totalDeleted := st2.deletedCount
        status := status
        finishedAt := some now
        errorMessage :=
          if st2.errors ≠ [] then some (String.intercalate "; " st2.errors) else none },
      { success := true, deleted := st2.deletedCount, skipped := st2.skippedCount,
        errors := st2.errorCount, errorMessages := st2.errors, batchId := batchId })

/-- First fixture message: a delete candidate that will be selected. -/
def msgFixture1 : Message :=
  { id := "id1", userId := "u", googleAccountId := "a", gmailMessageId := "g1",
    gmailThreadId := "t1", sender := "s1", senderName := none, subject := "",
    snippet := "", internalDate := 0, labels := [], hasUserReplied := false,
    isDeleteCandidate := true, isDeletedByApp := false, isManuallyKept := false,
    isManuallyDeleted := false, lastSyncedAt := 0 }

/-- Second fixture message: a delete candidate that will be deselected. -/
def msgFixture2 : Message :=
  { id := "id2", userId := "u", googleAccountId := "a", gmailMessageId := "g2",
    gmailThreadId := "t2", sender := "s2", senderName := none, subject := "",
    snippet := "", internalDate := 0, labels := [], hasUserReplied := false,
    isDeleteCandidate := true, isDeletedByApp := false, isManuallyKept := false,
    isManuallyDeleted := false, lastSyncedAt := 0 }

/-- Result of confirming deletion of id1 only, against the two candidates. -/
def confirmFixtureOut : ConfirmRunState × DeleteBatchRow × ConfirmResponse :=
  (confirmDeletePOST "u" "a" "b1" ["id1"] (fun _ => Except.ok ()) 5
      [msgFixture1, msgFixture2] []).getD
    (⟨[], [], [], [], 0, 0, 0, []⟩,
     ⟨"", "", "", 0, 0, BatchStatus.pending, none, none⟩,
     ⟨true, 0, 0, 0, [], ""⟩)

lemma calculatePenalty_le_one (st : SenderStat) : calculatePenalty st ≤ 1 := by
  unfold calculatePenalty
  dsimp only
  split
  · exact le_refl 1
  · split
    · norm_num
    · split
      · norm_num
      · exact le_refl 1

lemma half_le_calculatePenalty (st : SenderStat) : 1/2 ≤ calculatePenalty st := by
  unfold calculatePenalty
  dsimp only
  split
  · norm_num
  · split
    · norm_num
    · split
      · norm_num
      · norm_num

/-- The keep ratio is monotone in the kept count, for fixed deletion counts. -/
lemma keepRatio_mono {k k' d : Nat} (hk : k ≤ k') (hpos : 0 < k + d) :
    (k : ℚ) / ((k + d : Nat) : ℚ) ≤ (k' : ℚ) / ((k' + d : Nat) : ℚ) := by
  have hpos' : 0 < k' + d := lt_of_lt_of_le hpos (by omega)
  rw [div_le_div_iff₀ (by exact_mod_cast hpos) (by exact_mod_cast hpos')]
  push_cast
  have hkq : (k : ℚ) ≤ (k' : ℚ) := by exact_mod_cast hk
  have hd : (0 : ℚ) ≤ (d : ℚ) := by positivity
  nlinarith

lemma stepPenalty_mono {r r' : ℚ} (h : r ≤ r') :
    (if r' ≥ 4/5 then (1 : ℚ)/2 else if r' ≥ 1/2 then 3/4 else 1) ≤
      (if r ≥ 4/5 then (1 : ℚ)/2 else if r ≥ 1/2 then 3/4 else 1) := by
  by_cases h1 : r' ≥ 4/5
  · rw [if_pos h1]
    split_ifs <;> norm_num
  · have hr4 : ¬ (r ≥ 4/5) := fun hc => h1 (le_trans hc h)
    rw [if_neg h1, if_neg hr4]
    by_cases h2 : r' ≥ 1/2
    · rw [if_pos h2]
      split_ifs <;> norm_num
    · have hr2 : ¬ (r ≥ 1/2) := fun hc => h2 (le_trans hc h)
      rw [if_neg h2, if_neg hr2]

lemma ratio_ge_four_fifths_iff {k t : Nat} (ht : t ≠ 0) :
    ((4 : ℚ)/5 ≤ (k : ℚ) / (t : ℚ)) ↔ 4 * t ≤ 5 * k := by
  have htq : (0 : ℚ) < (t : ℚ) := by exact_mod_cast Nat.pos_of_ne_zero ht
  rw [div_le_div_iff₀ (by norm_num) htq]
  constructor
  · intro h
    have h' : (4 : ℚ) * t ≤ 5 * k := by linarith
    exact_mod_cast h'
  · intro h
    have h' : (4 : ℚ) * t ≤ 5 * k := by exact_mod_cast h
    linarith

lemma ratio_ge_half_iff {k t : Nat} (ht : t ≠ 0) :
    ((1 : ℚ)/2 ≤ (k : ℚ) / (t : ℚ)) ↔ t ≤ 2 * k := by
  have htq : (0 : ℚ) < (t : ℚ) := by exact_mod_cast Nat.pos_of_ne_zero ht
  rw [div_le_div_iff₀ (by norm_num) htq]
  constructor
  · intro h
    have h' : (t : ℚ) ≤ 2 * k := by linarith
    exact_mod_cast h'
  · intro h
    have h' : (t : ℚ) ≤ 2 * k := by exact_mod_cast h
    linarith

/-- C3: the penalty is the exact step function of the keep ratio
manuallyKeptCount / totalActions claimed by the spec (stated with
cross-multiplied integer inequalities, so the thresholds 0.8 and 0.5 are
exact), and for fixed deletion counts it never increases as
manuallyKeptCount increases. -/
theorem calculatePenalty_step_function (st : SenderStat) :
    (totalActions st = 0 → calculatePenalty st = 1) ∧
    (totalActions st ≠ 0 →
      (5 * st.manuallyKeptCount ≥ 4 * totalActions st → calculatePenalty st = 1/2) ∧
      (5 * st.manuallyKeptCount < 4 * totalActions st →
        2 * st.manuallyKeptCount ≥ totalActions st → calculatePenalty st = 3/4) ∧
      (2 * st.manuallyKeptCount < totalActions st → calculatePenalty st = 1)) ∧
    (∀ st' : SenderStat,
      st'.deletedByAppCount = st.deletedByAppCount →
      st'.manuallyDeletedCount = st.manuallyDeletedCount →
      st.manuallyKeptCount ≤ st'.manuallyKeptCount →
      calculatePenalty st' ≤ calculatePenalty st) := by
  refine ⟨?_, ?_, ?_⟩
  · intro h0
    unfold calculatePenalty
    simp only [totalActions] at h0
    simp [h0]
  · intro hne
    simp only [totalActions] at hne
    unfold calculatePenalty
    dsimp only
    rw [if_neg hne]
    refine ⟨?_, ?_, ?_⟩
    · intro h45
      simp only [totalActions] at h45
      rw [if_pos]
      rw [ge_iff_le, ratio_ge_four_fifths_iff hne]
      omega
    · intro hlt45 h12
      simp only [totalActions] at hlt45 h12
      rw [if_neg, if_pos]
      · rw [ge_iff_le, ratio_ge_half_iff hne]
        omega
      · rw [ge_iff_le, ratio_ge_four_fifths_iff hne]
        omega
    · intro hlt12
      simp only [totalActions] at hlt12
      rw [if_neg, if_neg]
      · rw [ge_iff_le, ratio_ge_half_iff hne]
        omega
      · rw [ge_iff_le, ratio_ge_four_fifths_iff hne]
        omega
  · intro st' hd hm hk
    by_cases ht' : totalActions st' = 0
    · have h0 : totalActions st = 0 := by
        simp only [totalActions] at ht' ⊢
        omega
      unfold calculatePenalty
      simp only [totalActions] at ht' h0
      simp [ht', h0]
    · by_cases ht : totalActions st = 0
      · have : calculatePenalty st = 1 := by
          unfold calculatePenalty
          simp only [totalActions] at ht
          simp [ht]
        rw [this]
        exact calculatePenalty_le_one st'
      · -- both totals positive: the keep ratio only grows
        have hr : (st.manuallyKeptCount : ℚ) / ((totalActions st : Nat) : ℚ) ≤
            (st'.manuallyKeptCount : ℚ) / ((totalActions st' : Nat) : ℚ) := by
          have e1 : totalActions st =
              st.manuallyKeptCount + (st.deletedByAppCount + st.manuallyDeletedCount) := by
            simp only [totalActions]; omega
          have e2 : totalActions st' =
              st'.manuallyKeptCount + (st.deletedByAppCount + st.manuallyDeletedCount) := by
            simp only [totalActions]; omega
          rw [e1, e2]
          exact keepRatio_mono hk (by
            have := Nat.pos_of_ne_zero ht
            simp only [totalActions] at this
            omega)
        unfold calculatePenalty
        dsimp only
        simp only [totalActions] at ht ht'
        rw [if_neg ht, if_neg ht']
        have hr' : (st.manuallyKeptCount : ℚ) /
              ((st.manuallyKeptCount + st.deletedByAppCount + st.manuallyDeletedCount : Nat) : ℚ) ≤
            (st'.manuallyKeptCount : ℚ) /
              ((st'.manuallyKeptCount + st'.deletedByAppCount + st'.manuallyDeletedCount : Nat) : ℚ) := by
          simpa [totalActions] using hr
        exact stepPenalty_mono hr'

/-- Concrete instances of the penalty step function: 4 keeps vs 1 deletion
gives 0.5, 1 keep vs 1 deletion gives 0.75, 0 keeps vs 3 deletions gives 1.0,
no actions gives 1.0, and adding keeps only lowered the penalty. -/
theorem calculatePenalty_step_function_witness :
    calculatePenalty ⟨"u", "a", "s", 5, 1, 0, 4, none⟩ = 1/2 ∧
    calculatePenalty ⟨"u", "a", "s", 2, 1, 0, 1, none⟩ = 3/4 ∧
    calculatePenalty ⟨"u", "a", "s", 3, 2, 1, 0, none⟩ = 1 ∧
    calculatePenalty ⟨"u", "a", "s", 0, 0, 0, 0, none⟩ = 1 ∧
    calculatePenalty ⟨"u", "a", "s", 5, 1, 0, 4, none⟩ ≤
      calculatePenalty ⟨"u", "a", "s", 2, 1, 0, 1, none⟩ :=
  ⟨((calculatePenalty_step_function _).2.1 (by decide)).1 (by decide),
   (((calculatePenalty_step_function _).2.1 (by decide)).2.1 (by decide)) (by decide),
   ((calculatePenalty_step_function _).2.1 (by decide)).2.2 (by decide),
   (calculatePenalty_step_function _).1 (by decide),
   (calculatePenalty_step_function ⟨"u", "a", "s", 2, 1, 0, 1, none⟩).2.2
     ⟨"u", "a", "s", 5, 1, 0, 4, none⟩ (by decide) (by decide) (by decide)⟩

lemma mapLookup_mapSet_self (m : List (String × ℚ)) (k : String) (v : ℚ) :
    mapLookup (mapSet m k v) k = some v := by
  induction m with
  | nil => simp [mapSet, mapLookup]
  | cons hd tl ih =>
    obtain ⟨k', v'⟩ := hd
    by_cases h : k' == k
    · simp [mapSet, mapLookup, h]
    · simp [mapSet, mapLookup, h, ih]

lemma mapLookup_mapSet_ne (m : List (String × ℚ)) {k k' : String} (v : ℚ)
    (h : k ≠ k') : mapLookup (mapSet m k v) k' = mapLookup m k' := by
  induction m with
  | nil => simp [mapSet, mapLookup, h]
  | cons hd tl ih =>
    obtain ⟨k0, v0⟩ := hd
    by_cases h0 : k0 == k
    · have hk0 : k0 = k := by simpa using h0
      have hne' : ¬ (k0 == k') = true := by simp [hk0, h]
      simp [mapSet, mapLookup, h0, hne']
    · by_cases h1 : k0 == k'
      · simp [mapSet, mapLookup, h0, h1]
      · simp [mapSet, mapLookup, h0, h1, ih]

/-- If no row in `stats` carries sender `s`, folding the map-building step
over `stats` leaves the entry of `s` unchanged. -/
lemma buildMap_lookup_of_not_mem (stats : List SenderStat) (m : List (String × ℚ))
    (s : String) (h : ∀ st ∈ stats, st.sender ≠ s) :
    mapLookup (stats.foldl (fun m st => mapSet m st.sender (calculatePenalty st)) m) s =
      mapLookup m s := by
  induction stats generalizing m with
  | nil => rfl
  | cons hd tl ih =>
    have hhd : hd.sender ≠ s := h hd (by simp)
    rw [List.foldl_cons, ih _ (fun st hst => h st (by simp [hst]))]
    exact mapLookup_mapSet_ne m _ hhd

/-- If exactly one row in `stats` carries sender `s`, the built map holds its
penalty. -/
lemma buildMap_lookup_of_single (stats : List SenderStat) (m : List (String × ℚ))
    (s : String) (st0 : SenderStat)
    (h : stats.filter (fun st => st.sender == s) = [st0]) :
    mapLookup (stats.foldl (fun m st => mapSet m st.sender (calculatePenalty st)) m) s =
      some (calculatePenalty st0) := by
  induction stats generalizing m with
  | nil => simp at h
  | cons hd tl ih =>
    by_cases hhd : hd.sender == s
    · have hs : hd.sender = s := by simpa using hhd
      rw [List.filter_cons, if_pos hhd] at h
      have hhd0 : hd = st0 := (List.cons_eq_cons.mp h).1
      have htl : tl.filter (fun st => st.sender == s) = [] := (List.cons_eq_cons.mp h).2
      have htl' : ∀ st ∈ tl, st.sender ≠ s := by
        intro st hst hc
        have : st ∈ tl.filter (fun st => st.sender == s) :=
          List.mem_filter.mpr ⟨hst, by simpa using hc⟩
        simp [htl] at this
      rw [List.foldl_cons, buildMap_lookup_of_not_mem tl _ s htl', hs, hhd0]
      exact mapLookup_mapSet_self m s (calculatePenalty st0)
    · have hs : hd.sender ≠ s := by simpa using hhd
      rw [List.filter_cons, if_neg hhd] at h
      rw [List.foldl_cons]
      rw [ih _ h]

/-- The fill-in pass never changes an entry that is already present. -/
lemma fillMap_lookup_of_some (senders : List String) (m : List (String × ℚ))
    (s : String) (v : ℚ) (h : mapLookup m s = some v) :
    mapLookup
      (senders.foldl
        (fun m sender => if (mapLookup m sender).isSome then m else mapSet m sender 1) m) s =
      some v := by
  induction senders generalizing m with
  | nil => exact h
  | cons hd tl ih =>
    rw [List.foldl_cons]
    by_cases hhd : (mapLookup m hd).isSome
    · rw [if_pos hhd]
      exact ih m h
    · rw [if_neg hhd]
      by_cases hs : hd = s
      · subst hs
        rw [h] at hhd
        simp at hhd
      · exact ih _ (by rw [mapLookup_mapSet_ne m 1 hs]; exact h)

/-- The fill-in pass writes 1.0 for a listed sender that is absent. -/
lemma fillMap_lookup_of_none (senders : List String) (m : List (String × ℚ))
    (s : String) (hmem : s ∈ senders) (h : mapLookup m s = none) :
    mapLookup
      (senders.foldl
        (fun m sender => if (mapLookup m sender).isSome then m else mapSet m sender 1) m) s =
      some 1 := by
  induction senders generalizing m with
  | nil => simp at hmem
  | cons hd tl ih =>
    rw [List.foldl_cons]
    by_cases hs : hd = s
    · subst hs
      rw [if_neg (by simp [h])]
      exact fillMap_lookup_of_some tl _ hd 1 (mapLookup_mapSet_self m hd 1)
    · have hmem' : s ∈ tl := by
        rcases List.mem_cons.mp hmem with h1 | h1
        · exact absurd h1.symm hs
        · exact h1
      by_cases hhd : (mapLookup m hd).isSome
      · rw [if_pos hhd]
        exact ih m hmem' h
      · rw [if_neg hhd]
        exact ih (mapSet m hd 1) hmem' (by rw [mapLookup_mapSet_ne m 1 hs]; exact h)

lemma calculatePenalty_of_no_actions {st : SenderStat} (h : totalActions st = 0) :
    calculatePenalty st = 1 := by
  unfold calculatePenalty
  simp only [totalActions] at h
  simp [h]

lemma find?_eq_of_filter_single {α : Type} (p : α → Bool) (l : List α) (a : α)
    (h : l.filter p = [a]) : l.find? p = some a := by
  induction l with
  | nil => simp at h
  | cons hd tl ih =>
    by_cases hhd : p hd
    · rw [List.filter_cons, if_pos hhd] at h
      rw [List.find?_cons_of_pos _ hhd]
      exact congrArg some (List.cons_eq_cons.mp h).1
    · rw [List.filter_cons, if_neg hhd] at h
      rw [List.find?_cons_of_neg _ hhd]
      exact ih h

/-- C4 counterexample: on a stored row with totalCount = 0 but one recorded
keep, the batch lookup applies the step function (0.5) while the single
lookup short-circuits to 1.0, so the two disagree. -/
theorem getBatchSenderPenalties_totalCount_zero_counterexample :
    mapLookup
        (getBatchSenderPenalties [⟨"u", "a", "s", 0, 0, 0, 1, none⟩] "a" ["s"]) "s" =
      some (1/2) ∧
    getSenderPenalty [⟨"u", "a", "s", 0, 0, 0, 1, none⟩] "a" "s" = 1 ∧
    ((1 : ℚ)/2) ≠ 1 := by
  refine ⟨?_, ?_, ?_⟩
  · norm_num [getBatchSenderPenalties, calculatePenalty, mapSet, mapLookup,
      List.filter, List.contains, List.foldl]
  · norm_num [getSenderPenalty, List.find?]
  · norm_num

/-- C4 (amended): the batch lookup agrees with the single lookup for every
listed sender, provided the stored rows for that (account, sender) pair are
unique (guaranteed by the schema's unique index) and any such row either has
totalCount ≠ 0 or no recorded actions (every code path that inserts a row
starts it at totalCount = 1, so stored rows satisfy this); the exception the
counterexample exhibits (totalCount = 0 with recorded actions) is exactly
what the hypothesis excludes. -/
theorem getBatchSenderPenalties_agrees_single
    (sdb : List SenderStat) (googleAccountId : String) (senders : List String)
    (s : String) (hmem : s ∈ senders)
    (hUnique :
      (sdb.filter
        (fun st => st.googleAccountId == googleAccountId && st.sender == s)).length ≤ 1)
    (hTotal : ∀ st ∈ sdb, st.googleAccountId = googleAccountId → st.sender = s →
      st.totalCount ≠ 0 ∨ totalActions st = 0) :
    mapLookup (getBatchSenderPenalties sdb googleAccountId senders) s =
      some (getSenderPenalty sdb googleAccountId s) := by
  have hne : senders ≠ [] := by
    intro hc
    rw [hc] at hmem
    simp at hmem
  unfold getBatchSenderPenalties
  rw [if_neg hne]
  have hfilter :
      (sdb.filter
          (fun st => st.googleAccountId == googleAccountId && senders.contains st.sender)).filter
        (fun st => st.sender == s) =
      sdb.filter (fun st => st.googleAccountId == googleAccountId && st.sender == s) := by
    rw [List.filter_filter]
    apply List.filter_congr
    intro st _
    by_cases hsd : st.sender = s
    · simp [hsd, hmem]
    · simp [(by simpa using hsd : ¬ (st.sender == s) = true)]
  rcases hlist : sdb.filter
      (fun st => st.googleAccountId == googleAccountId && st.sender == s) with _ | ⟨st0, rest⟩
  · -- no stored row for (account, s)
    have hnone :
        sdb.find? (fun st => st.googleAccountId == googleAccountId && st.sender == s) = none := by
      rw [List.find?_eq_none]
      intro st hst
      have := List.filter_eq_nil_iff.mp hlist st hst
      simpa using this
    have hbuild :
        mapLookup
          ((sdb.filter
              (fun st => st.googleAccountId == googleAccountId && senders.contains st.sender)).foldl
            (fun m st => mapSet m st.sender (calculatePenalty st)) []) s = none := by
      rw [buildMap_lookup_of_not_mem]
      · rfl
      · intro st hst hc
        have hmemf : st ∈ (sdb.filter
            (fun st => st.googleAccountId == googleAccountId && senders.contains st.sender)).filter
            (fun st => st.sender == s) :=
          List.mem_filter.mpr ⟨hst, by simpa using hc⟩
        rw [hfilter, hlist] at hmemf
        simp at hmemf
    rw [fillMap_lookup_of_none senders _ s hmem hbuild]
    unfold getSenderPenalty
    rw [hnone]
  · -- exactly one stored row (the uniqueness hypothesis rules out more)
    have hrest : rest = [] := by
      rw [hlist] at hUnique
      simp at hUnique
      simpa using hUnique
    subst hrest
    have hst0mem : st0 ∈ sdb := by
      have : st0 ∈ sdb.filter
          (fun st => st.googleAccountId == googleAccountId && st.sender == s) := by
        rw [hlist]; simp
      exact (List.mem_filter.mp this).1
    have hst0p : st0.googleAccountId = googleAccountId ∧ st0.sender = s := by
      have : st0 ∈ sdb.filter
          (fun st => st.googleAccountId == googleAccountId && st.sender == s) := by
        rw [hlist]; simp
      have hp := (List.mem_filter.mp this).2
      have hp' : st0.googleAccountId = googleAccountId ∧ st0.sender = s := by
        simpa using hp
      exact hp'
    have hfind :
        sdb.find? (fun st => st.googleAccountId == googleAccountId && st.sender == s) =
          some st0 :=
      find?_eq_of_filter_single _ _ _ hlist
    have hbuild :
        mapLookup
          ((sdb.filter
              (fun st => st.googleAccountId == googleAccountId && senders.contains st.sender)).foldl
            (fun m st => mapSet m st.sender (calculatePenalty st)) []) s =
          some (calculatePenalty st0) := by
      apply buildMap_lookup_of_single
      rw [hfilter, hlist]
    rw [fillMap_lookup_of_some senders _ s _ hbuild]
    have hsingle : getSenderPenalty sdb googleAccountId s =
        if st0.totalCount = 0 then 1 else calculatePenalty st0 := by
      unfold getSenderPenalty
      rw [hfind]
    rw [hsingle]
    rcases hTotal st0 hst0mem hst0p.1 hst0p.2 with htc | hact
    · rw [if_neg htc]
    · rw [calculatePenalty_of_no_actions hact]
      by_cases h0 : st0.totalCount = 0
      · rw [if_pos h0]
      · rw [if_neg h0]

/-- Concrete agreement instance for the amended batch/single equivalence:
one stored row with totalCount 3 and keep ratio 4/5, where both lookups
yield 0.5. -/
theorem getBatchSenderPenalties_agrees_single_witness :
    mapLookup
        (getBatchSenderPenalties [⟨"u", "a", "s", 3, 1, 0, 4, none⟩] "a" ["s"]) "s" =
      some (getSenderPenalty [⟨"u", "a", "s", 3, 1, 0, 4, none⟩] "a" "s") :=
  getBatchSenderPenalties_agrees_single [⟨"u", "a", "s", 3, 1, 0, 4, none⟩] "a"
    ["s"] "s" (by decide) (by decide) (by decide)

/-- C10: when the messageId matches no stored Message row, all three
recording functions return the sender statistics unchanged (no row created
or modified, no error). -/
theorem record_functions_missing_message_noop
    (userId messageId sender : String) (mdb : List Message) (sdb : List SenderStat)
    (h : mdb.find? (fun m => m.id == messageId) = none) :
    recordDeletion userId messageId sender mdb sdb = sdb ∧
    recordManualDeletion userId messageId sender mdb sdb = sdb ∧
    recordKeep userId messageId sender mdb sdb = sdb := by
  refine ⟨?_, ?_, ?_⟩
  · unfold recordDeletion
    rw [h]
  · unfold recordManualDeletion
    rw [h]
  · unfold recordKeep
    rw [h]

/-- Concrete missing-message no-op: a non-empty statistics table is returned
untouched for an unknown messageId. -/
theorem record_functions_missing_message_noop_witness :
    recordDeletion "u" "missing" "s" [] [⟨"u", "a", "s", 1, 0, 0, 0, none⟩] =
      [⟨"u", "a", "s", 1, 0, 0, 0, none⟩] ∧
    recordManualDeletion "u" "missing" "s" [] [⟨"u", "a", "s", 1, 0, 0, 0, none⟩] =
      [⟨"u", "a", "s", 1, 0, 0, 0, none⟩] ∧
    recordKeep "u" "missing" "s" [] [⟨"u", "a", "s", 1, 0, 0, 0, none⟩] =
      [⟨"u", "a", "s", 1, 0, 0, 0, none⟩] :=
  record_functions_missing_message_noop "u" "missing" "s" []
    [⟨"u", "a", "s", 1, 0, 0, 0, none⟩] (by decide)

/-- C6 (the code as it stands): `normalizeCategory` always lands in the
seven-member closed enum and maps the keyword families as described, but the
enum member "spamLike" is itself rewritten to "unknown": the lowercased input
"spamlike" can never equal the camel-cased list entry "spamLike", so a valid
model answer falls through every keyword test. -/
theorem normalizeCategory_closure_and_spamLike :
    (∀ s : String, normalizeCategory s ∈ categoryEnum) ∧
    normalizeCategory "spamLike" = "unknown" ∧
    "spamLike" ∈ categoryEnum ∧
    normalizeCategory "Personal" = "personal" ∧
    normalizeCategory "URGENT!" = "work" ∧
    normalizeCategory "Newsletter" = "promo" ∧
    normalizeCategory "payment reminder" = "notification" ∧
    normalizeCategory "something else" = "unknown" := by
  refine ⟨?_, by decide, by decide, by decide, by decide, by decide, by decide, by decide⟩
  intro s
  unfold normalizeCategory
  by_cases h : validCategories.contains (toLowerCase s)
  · rw [if_pos h]
    have hmem : toLowerCase s ∈ validCategories := by simpa using h
    simp only [validCategories, List.mem_cons, List.not_mem_nil, or_false] at hmem
    rcases hmem with h' | h' | h' | h' | h' | h' | h' <;> rw [h'] <;> decide
  · rw [if_neg h]
    split_ifs <;> decide

/-- C5: for a raw model score in [0,1] and a sender penalty in [0.5,1], the
adjusted score equals raw × penalty clamped to [0,1], stays in [0,1], never
exceeds the raw score, and the reason gets the adjustment note exactly when
the penalty is below 1.0. -/
theorem adjusted_score_bounds
    (senderPenalties : List (String × ℚ)) (emails : List EmailInput)
    (c : RawClassification) (e : EmailInput) (p : ℚ)
    (hfind : emails.find? (fun e' => e'.gmailMessageId == c.gmailMessageId) = some e)
    (hlook : mapLookup senderPenalties e.sender = some p)
    (hp0 : 1/2 ≤ p) (hp1 : p ≤ 1)
    (hs0 : 0 ≤ c.deleteScore) (hs1 : c.deleteScore ≤ 1) :
    (adjustClassification senderPenalties emails c).deleteScore =
      max 0 (min 1 (c.deleteScore * p)) ∧
    0 ≤ (adjustClassification senderPenalties emails c).deleteScore ∧
    (adjustClassification senderPenalties emails c).deleteScore ≤ 1 ∧
    (adjustClassification senderPenalties emails c).deleteScore ≤ c.deleteScore ∧
    (p < 1 →
      (adjustClassification senderPenalties emails c).reason =
        c.reason ++ " (Adjusted based on user's keep pattern for this sender)") := by
  have hpne : p ≠ 0 := by
    intro hc
    rw [hc] at hp0
    norm_num at hp0
  have hjs : jsOr (mapLookup senderPenalties e.sender) 1 = p := by
    rw [hlook]
    show (if p = 0 then (1 : ℚ) else p) = p
    rw [if_neg hpne]
  have hprod0 : 0 ≤ c.deleteScore * p := mul_nonneg hs0 (by linarith)
  have hprod1 : c.deleteScore * p ≤ 1 := by nlinarith
  have hprodle : c.deleteScore * p ≤ c.deleteScore :=
    mul_le_of_le_one_right hs0 hp1
  have hscore : (adjustClassification senderPenalties emails c).deleteScore =
      min 1 (c.deleteScore * p) := by
    unfold adjustClassification
    rw [hfind]
    dsimp only
    rw [hjs]
  refine ⟨?_, ?_, ?_, ?_, ?_⟩
  · rw [hscore, min_eq_right hprod1, max_eq_right hprod0]
  · rw [hscore, min_eq_right hprod1]
    exact hprod0
  · rw [hscore, min_eq_right hprod1]
    exact hprod1
  · rw [hscore, min_eq_right hprod1]
    exact hprodle
  · intro hlt
    unfold adjustClassification
    rw [hfind]
    dsimp only
    rw [hjs, if_pos hlt]

/-- Concrete score adjustment: raw 0.9 with penalty 0.75 yields 0.675 with
the adjustment note appended. -/
theorem adjusted_score_bounds_witness :
    (adjustClassification [("s", 3/4)] [⟨"m1", "s", "sub", "sn", [], false, 1, "a"⟩]
        ⟨"m1", "promo", 9/10, "r"⟩).deleteScore =
      max 0 (min 1 ((9 : ℚ)/10 * (3/4))) ∧
    (adjustClassification [("s", 3/4)] [⟨"m1", "s", "sub", "sn", [], false, 1, "a"⟩]
        ⟨"m1", "promo", 9/10, "r"⟩).deleteScore ≤ 9/10 ∧
    (adjustClassification [("s", 3/4)] [⟨"m1", "s", "sub", "sn", [], false, 1, "a"⟩]
        ⟨"m1", "promo", 9/10, "r"⟩).reason =
      "r" ++ " (Adjusted based on user's keep pattern for this sender)" := by
  have h := adjusted_score_bounds [("s", 3/4)] [⟨"m1", "s", "sub", "sn", [], false, 1, "a"⟩]
    ⟨"m1", "promo", 9/10, "r"⟩ ⟨"m1", "s", "sub", "sn", [], false, 1, "a"⟩ (3/4)
    (by rfl) (by rfl) (by norm_num) (by norm_num) (by norm_num) (by norm_num)
  exact ⟨h.1, h.2.2.2.1, h.2.2.2.2 (by norm_num)⟩

lemma classifyChunk_of_error (sdb : List SenderStat)
    (llm : List EmailInput → Except Unit (List RawClassification))
    (chunk : List EmailInput) (u : Unit) (h : llm chunk = .error u) :
    classifyChunk sdb llm chunk = .error u := by
  unfold classifyChunk
  rw [h]

lemma classifyChunk_of_ok (sdb : List SenderStat)
    (llm : List EmailInput → Except Unit (List RawClassification))
    (chunk : List EmailInput) (rs : List RawClassification) (h : llm chunk = .ok rs) :
    classifyChunk sdb llm chunk =
      .ok (rs.map (adjustClassification
        (getBatchSenderPenalties sdb
          (match chunk.head? with
           | some e => e.googleAccountId
           | none => "")
          (uniqueFirst (chunk.map (fun e => e.sender)))) chunk)) := by
  unfold classifyChunk
  rw [h]

lemma adjustClassification_id (sp : List (String × ℚ)) (emails : List EmailInput)
    (c : RawClassification) :
    (adjustClassification sp emails c).gmailMessageId = c.gmailMessageId := rfl

lemma chunkEmails_spec_aux :
    ∀ (n : Nat) (emails : List EmailInput), emails.length ≤ n →
      (∀ chunk ∈ chunkEmails emails, chunk.length ≤ CHUNK_SIZE) ∧
      (chunkEmails emails).flatten = emails := by
  intro n
  induction n with
  | zero =>
    intro emails h
    have he : emails = [] := List.eq_nil_of_length_eq_zero (Nat.le_zero.mp h)
    subst he
    rw [chunkEmails]
    simp
  | succ n ih =>
    intro emails h
    by_cases he : emails = []
    · subst he
      rw [chunkEmails]
      simp
    · rw [chunkEmails, dif_neg he]
      have hdrop : (emails.drop CHUNK_SIZE).length ≤ n := by
        simp only [List.length_drop, CHUNK_SIZE]
        have hpos : 0 < emails.length := List.length_pos.mpr he
        omega
      obtain ⟨ih1, ih2⟩ := ih (emails.drop CHUNK_SIZE) hdrop
      constructor
      · intro chunk hchunk
        rcases List.mem_cons.mp hchunk with hc | hc
        · subst hc
          simp only [List.length_take]
          omega
        · exact ih1 chunk hc
      · rw [List.flatten_cons, ih2, List.take_append_drop]

lemma flatten_map_perm {α β : Type} (L : List (List α)) (g h : List α → List β)
    (hper : ∀ c ∈ L, (g c).Perm (h c)) :
    ((L.map g).flatten).Perm ((L.map h).flatten) := by
  induction L with
  | nil => simp
  | cons hd tl ih =>
    simp only [List.map_cons, List.flatten_cons]
    exact (hper hd (by simp)).append (ih (fun c hc => hper c (by simp [hc])))

/-- C7 counterexample: a chunk classification that succeeds but returns an
empty array yields zero results for the chunk's one message, so a successful
chunk does not guarantee one result per input message. -/
theorem classify_missing_result_counterexample :
    classifyEmailsForDeletion [] (fun _ => Except.ok [])
        [⟨"m1", "s", "sub", "sn", [], false, 1, "a"⟩] = [] ∧
    ([⟨"m1", "s", "sub", "sn", [], false, 1, "a"⟩] : List EmailInput).length = 1 := by
  constructor
  · have hchunks : chunkEmails [⟨"m1", "s", "sub", "sn", [], false, 1, "a"⟩] =
        [[⟨"m1", "s", "sub", "sn", [], false, 1, "a"⟩]] := by
      rw [chunkEmails, dif_neg (by simp)]
      rw [chunkEmails]
      simp [CHUNK_SIZE]
    simp only [classifyEmailsForDeletion, hchunks, List.map_cons, List.map_nil]
    rw [classifyChunk_of_ok _ _ _ _ rfl]
    simp
  · rfl

/-- C7 (amended): `classifyEmailsForDeletion` splits the input into chunks
of at most CHUNK_SIZE = 50 whose concatenation is the input; a chunk whose
classification throws contributes exactly the default
unknown/0/"Classification failed" result for each of its messages, as a
contiguous segment, with the other chunks' results unaffected; and whenever
the provider's reply to every successful chunk carries exactly the chunk's
message ids (the source does not enforce this, as the counterexample shows),
every input message receives exactly one result. -/
theorem classify_chunking_contract (sdb : List SenderStat)
    (llm : List EmailInput → Except Unit (List RawClassification))
    (emails : List EmailInput) :
    (∀ chunk ∈ chunkEmails emails, chunk.length ≤ CHUNK_SIZE) ∧
    (chunkEmails emails).flatten = emails ∧
    (∀ chunk ∈ chunkEmails emails, ∀ u, llm chunk = .error u →
      ∃ pre post, classifyEmailsForDeletion sdb llm emails =
        pre ++ chunk.map defaultResult ++ post) ∧
    ((∀ chunk ∈ chunkEmails emails, ∀ rs, llm chunk = .ok rs →
        (rs.map (fun c => c.gmailMessageId)).Perm
          (chunk.map (fun e => e.gmailMessageId))) →
      ((classifyEmailsForDeletion sdb llm emails).map (fun r => r.gmailMessageId)).Perm
        (emails.map (fun e => e.gmailMessageId))) := by
  obtain ⟨hsize, hflat⟩ := chunkEmails_spec_aux emails.length emails le_rfl
  refine ⟨hsize, hflat, ?_, ?_⟩
  · intro chunk hmem u herr
    obtain ⟨s, t, hst⟩ := List.append_of_mem hmem
    refine ⟨((s.map (fun chunk => match classifyChunk sdb llm chunk with
        | .ok rs => rs
        | .error _ => chunk.map defaultResult)).flatten),
      ((t.map (fun chunk => match classifyChunk sdb llm chunk with
        | .ok rs => rs
        | .error _ => chunk.map defaultResult)).flatten), ?_⟩
    simp only [classifyEmailsForDeletion, hst, List.map_append, List.map_cons,
      List.flatten_append, List.flatten_cons]
    rw [classifyChunk_of_error sdb llm chunk u herr, List.append_assoc]
  · intro hok
    simp only [classifyEmailsForDeletion]
    rw [List.map_flatten, List.map_map]
    conv_rhs => rw [← hflat, List.map_flatten]
    apply flatten_map_perm
    intro c hc
    cases hl : llm c with
    | error u =>
      simp only [Function.comp]
      rw [classifyChunk_of_error sdb llm c u hl]
      simp only [List.map_map]
      exact List.Perm.refl _
    | ok rs =>
      simp only [Function.comp]
      rw [classifyChunk_of_ok sdb llm c rs hl]
      simp only [List.map_map]
      exact hok c hc rs hl

/-- Concrete chunking run: a provider that answers one classification per
message yields exactly one result per input message. -/
theorem classify_chunking_contract_witness :
    ((classifyEmailsForDeletion []
        (fun c => Except.ok (c.map (fun e => ⟨e.gmailMessageId, "promo", 1/2, "r"⟩)))
        [⟨"m1", "s", "sub", "sn", [], false, 1, "a"⟩]).map
      (fun r => r.gmailMessageId)).Perm
      (([⟨"m1", "s", "sub", "sn", [], false, 1, "a"⟩] : List EmailInput).map
        (fun e => e.gmailMessageId)) :=
  (classify_chunking_contract [] _ _).2.2.2 (by
    intro chunk hmem rs heq
    simp only [Except.ok.injEq] at heq
    subst heq
    rw [List.map_map]
    exact List.Perm.refl _)

lemma syncAfterItem_processed (s : LoopSt) :
    (syncAfterItem s).processed = s.processed + 1 := by
  unfold syncAfterItem
  dsimp only
  split <;> rfl

lemma syncAfterItem_row_status (s : LoopSt) :
    (syncAfterItem s).row.status = s.row.status := by
  unfold syncAfterItem
  dsimp only
  split <;> rfl

lemma syncItemStep_processed (inp : SyncInputs) (u a : String) (ref : GmailRef)
    (s : LoopSt) : (syncItemStep inp u a ref s).processed = s.processed + 1 := by
  unfold syncItemStep
  split
  · rfl
  · dsimp only
    split
    · rw [syncAfterItem_processed]
    · rw [syncAfterItem_processed]

lemma syncItemStep_row_status (inp : SyncInputs) (u a : String) (ref : GmailRef)
    (s : LoopSt) : (syncItemStep inp u a ref s).row.status = s.row.status := by
  unfold syncItemStep
  split
  · rfl
  · dsimp only
    split
    · rw [syncAfterItem_row_status]
    · rw [syncAfterItem_row_status]

lemma foldl_syncItemStep_processed (inp : SyncInputs) (u a : String)
    (msgs : List GmailRef) (s : LoopSt) :
    (msgs.foldl (fun s ref => syncItemStep inp u a ref s) s).processed =
      s.processed + msgs.length := by
  induction msgs generalizing s with
  | nil => simp
  | cons ref rest ih =>
    rw [List.foldl_cons, ih, syncItemStep_processed]
    simp only [List.length_cons]
    omega

lemma foldl_syncItemStep_row_status (inp : SyncInputs) (u a : String)
    (msgs : List GmailRef) (s : LoopSt) :
    (msgs.foldl (fun s ref => syncItemStep inp u a ref s) s).row.status =
      s.row.status := by
  induction msgs generalizing s with
  | nil => rfl
  | cons ref rest ih =>
    rw [List.foldl_cons, ih, syncItemStep_row_status]

/-- If no clock reading within the sub-chunk exceeds the budget, the loop
runs to completion and is the fold of the item step. -/
lemma syncLoop_no_timeout (inp : SyncInputs) (u a : String) (tok : Option String)
    (tot : Nat) (msgs : List GmailRef) :
    ∀ (i : Nat) (s : LoopSt),
      (∀ j, j < msgs.length → inp.clock (i + j) ≤ maxExecutionTime) →
      syncLoop inp u a tok tot msgs i s =
        Sum.inl (msgs.foldl (fun s ref => syncItemStep inp u a ref s) s) := by
  induction msgs with
  | nil =>
    intro i s h
    rfl
  | cons ref rest ih =>
    intro i s h
    have h0 : inp.clock i ≤ maxExecutionTime := by
      have := h 0 (by simp)
      simpa using this
    simp only [syncLoop]
    rw [if_neg (by omega)]
    rw [List.foldl_cons]
    apply ih
    intro j hj
    have := h (j + 1) (by simpa using Nat.succ_lt_succ hj)
    have harith : i + (j + 1) = i + 1 + j := by omega
    rw [harith] at this
    exact this

/-- If the k-th clock reading is the first to exceed the budget (and k is
within the sub-chunk), the loop returns early through `timeoutExit` after
folding exactly the first k items. -/
lemma syncLoop_timeout (inp : SyncInputs) (u a : String) (tok : Option String)
    (tot : Nat) :
    ∀ (k : Nat) (msgs : List GmailRef) (i : Nat) (s : LoopSt),
      k < msgs.length →
      (∀ j, j < k → inp.clock (i + j) ≤ maxExecutionTime) →
      inp.clock (i + k) > maxExecutionTime →
      syncLoop inp u a tok tot msgs i s =
        Sum.inr (timeoutExit tok tot
          ((msgs.take k).foldl (fun s ref => syncItemStep inp u a ref s) s)) := by
  intro k
  induction k with
  | zero =>
    intro msgs i s hk hbefore hover
    cases msgs with
    | nil => simp at hk
    | cons ref rest =>
      simp only [syncLoop]
      rw [if_pos (by simpa using hover)]
      simp
  | succ k ih =>
    intro msgs i s hk hbefore hover
    cases msgs with
    | nil => simp at hk
    | cons ref rest =>
      have h0 : inp.clock i ≤ maxExecutionTime := by
        have := hbefore 0 (by omega)
        simpa using this
      simp only [syncLoop]
      rw [if_neg (by omega)]
      rw [List.take_succ_cons, List.foldl_cons]
      apply ih rest (i + 1)
      · simpa using Nat.lt_of_succ_lt_succ (by simpa using hk)
      · intro j hj
        have := hbefore (j + 1) (by omega)
        have harith : i + (j + 1) = i + 1 + j := by omega
        rw [harith] at this
        exact this
      · have harith : i + (k + 1) = i + 1 + k := by omega
        rw [harith] at hover
        exact hover

/-- C1: when, before the k-th message of the sub-chunk, the elapsed
wall-clock reading first exceeds the budget of 300s minus the 50s safety
margin (250s of work), the invocation persists the running counters and the
continuation token to the SyncProgress row, leaves its status in_progress,
and immediately returns a success result whose hasMore reflects the stored
continuation token and whose synced count is the resumed count plus the k
items processed. -/
theorem sync_timeout_budget_contract (inp : SyncInputs) (userId accountId : String)
    (progressRecord : SyncProgressRow) (isResuming : Bool)
    (mdb : List Message) (sdb : List SenderStat) (k : Nat)
    (hne : inp.page.messages ≠ [])
    (hstatus : progressRecord.status = SyncStatus.in_progress)
    (hk : k < (inp.page.messages.take MESSAGES_PER_CHUNK).length)
    (hbefore : ∀ j, j < k → inp.clock j ≤ maxExecutionTime)
    (hover : inp.clock k > maxExecutionTime) :
    TIMEOUT_SAFETY_MARGIN = 50 ∧
    maxExecutionTime = (300 - 50) * 1000 ∧
    (let out := runSyncChunk inp userId accountId progressRecord isResuming mdb sdb
     out.2.success = true ∧
     out.2.message = "Sync in progress - processing in chunks to avoid timeout" ∧
     out.2.synced = progressRecord.processedMessages + k ∧
     out.2.hasMore = some inp.page.nextPageToken.isSome ∧
     out.1.row.status = SyncStatus.in_progress ∧
     out.1.row.nextPageToken = inp.page.nextPageToken ∧
     out.1.row.processedMessages = out.2.synced ∧
     out.1.row.created = out.2.created ∧
     out.1.row.updated = out.2.updated ∧
     out.1.row.errors = out.2.errors) := by
  refine ⟨by decide, by decide, ?_⟩
  have hrun : runSyncChunk inp userId accountId progressRecord isResuming mdb sdb =
      timeoutExit inp.page.nextPageToken
        (if !isResuming && progressRecord.totalMessages == 0 then inp.page.messages.length
         else progressRecord.totalMessages)
        (((inp.page.messages.take MESSAGES_PER_CHUNK).take k).foldl
          (fun s ref => syncItemStep inp userId accountId ref s)
          { row := progressRecord, trace := [], messagesDb := mdb, senderStatsDb := sdb,
            created := progressRecord.created, updated := progressRecord.updated,
            errors := progressRecord.errors, processed := progressRecord.processedMessages,
            processedInThisBatch := 0 }) := by
    simp only [runSyncChunk]
    rw [if_neg (by simp [List.isEmpty_iff, hne])]
    rw [syncLoop_timeout inp userId accountId inp.page.nextPageToken _ k
      (inp.page.messages.take MESSAGES_PER_CHUNK) 0 _ hk
      (fun j hj => by simpa using hbefore j hj) (by simpa using hover)]
  simp only [hrun]
  have hlen : ((inp.page.messages.take MESSAGES_PER_CHUNK).take k).length = k := by
    rw [List.length_take]
    omega
  refine ⟨rfl, rfl, ?_, rfl, ?_, rfl, rfl, rfl, rfl, rfl⟩
  · show (((inp.page.messages.take MESSAGES_PER_CHUNK).take k).foldl
        (fun s ref => syncItemStep inp userId accountId ref s)
        { row := progressRecord, trace := [], messagesDb := mdb, senderStatsDb := sdb,
          created := progressRecord.created, updated := progressRecord.updated,
          errors := progressRecord.errors, processed := progressRecord.processedMessages,
          processedInThisBatch := 0 }).processed = progressRecord.processedMessages + k
    rw [foldl_syncItemStep_processed, hlen]
  · show (((inp.page.messages.take MESSAGES_PER_CHUNK).take k).foldl
        (fun s ref => syncItemStep inp userId accountId ref s)
        { row := progressRecord, trace := [], messagesDb := mdb, senderStatsDb := sdb,
          created := progressRecord.created, updated := progressRecord.updated,
          errors := progressRecord.errors, processed := progressRecord.processedMessages,
          processedInThisBatch := 0 }).row.status = SyncStatus.in_progress
    rw [foldl_syncItemStep_row_status]
    exact hstatus

lemma syncAfterItem_inv_of (s : LoopSt)
    (h1 : s.processed + 1 = s.created + s.updated + s.errors)
    (h2 : rowCounterEq s.row) (h3 : ∀ r ∈ s.trace, rowCounterEq r) :
    loopInv (syncAfterItem s) := by
  unfold syncAfterItem
  dsimp only
  split
  · refine ⟨h1, h1, ?_⟩
    intro r hr
    rcases List.mem_append.mp hr with h' | h'
    · exact h3 r h'
    · have : r = { s.row with
                   processedMessages := s.processed + 1
                   created := s.created
                   updated := s.updated
                   errors := s.errors } := by simpa using h'
      subst this
      exact h1
  · exact ⟨h1, h2, h3⟩

lemma syncItemStep_inv (inp : SyncInputs) (u a : String) (ref : GmailRef)
    (s : LoopSt) (h : loopInv s) : loopInv (syncItemStep inp u a ref s) := by
  obtain ⟨h1, h2, h3⟩ := h
  unfold syncItemStep
  split
  · refine ⟨?_, h2, h3⟩
    show s.processed + 1 = s.created + s.updated + (s.errors + 1)
    omega
  · dsimp only
    split
    · apply syncAfterItem_inv_of
      · show s.processed + 1 = s.created + (s.updated + 1) + s.errors
        omega
      · exact h2
      · exact h3
    · apply syncAfterItem_inv_of
      · show s.processed + 1 = s.created + 1 + s.updated + s.errors
        omega
      · exact h2
      · exact h3

lemma timeoutExit_inv (tok : Option String) (tot : Nat) (s : LoopSt)
    (h : loopInv s) :
    loopInv (timeoutExit tok tot s).1 ∧
    (timeoutExit tok tot s).2.synced =
      (timeoutExit tok tot s).2.created + (timeoutExit tok tot s).2.updated +
        (timeoutExit tok tot s).2.errors := by
  obtain ⟨h1, h2, h3⟩ := h
  unfold timeoutExit
  dsimp only
  refine ⟨⟨h1, h1, ?_⟩, h1⟩
  intro r hr
  rcases List.mem_append.mp hr with h' | h'
  · exact h3 r h'
  · have : r = { s.row with
                 processedMessages := s.processed
                 created := s.created
                 updated := s.updated
                 errors := s.errors
                 nextPageToken := tok } := by simpa using h'
    subst this
    exact h1

lemma syncLoop_inv (inp : SyncInputs) (u a : String) (tok : Option String) (tot : Nat) :
    ∀ (msgs : List GmailRef) (i : Nat) (s : LoopSt), loopInv s →
      (∀ s', syncLoop inp u a tok tot msgs i s = Sum.inl s' → loopInv s') ∧
      (∀ s' resp, syncLoop inp u a tok tot msgs i s = Sum.inr (s', resp) →
        loopInv s' ∧ resp.synced = resp.created + resp.updated + resp.errors) := by
  intro msgs
  induction msgs with
  | nil =>
    intro i s h
    constructor
    · intro s' he
      simp only [syncLoop] at he
      injection he with he'
      rw [← he']
      exact h
    · intro s' resp he
      simp only [syncLoop] at he
      simp at he
  | cons ref rest ih =>
    intro i s h
    by_cases hc : inp.clock i > maxExecutionTime
    · constructor
      · intro s' he
        simp only [syncLoop] at he
        rw [if_pos hc] at he
        simp at he
      · intro s' resp he
        simp only [syncLoop] at he
        rw [if_pos hc] at he
        injection he with he'
        obtain ⟨hti, hts⟩ := timeoutExit_inv tok tot s h
        constructor
        · rw [show s' = (timeoutExit tok tot s).1 from by rw [he']]
          exact hti
        · rw [show resp = (timeoutExit tok tot s).2 from by rw [he']]
          exact hts
    · constructor
      · intro s' he
        simp only [syncLoop] at he
        rw [if_neg hc] at he
        exact (ih (i + 1) _ (syncItemStep_inv inp u a ref s h)).1 s' he
      · intro s' resp he
        simp only [syncLoop] at he
        rw [if_neg hc] at he
        exact (ih (i + 1) _ (syncItemStep_inv inp u a ref s h)).2 s' resp he

/-- C9: counter reconciliation — at every point where the SyncProgress row
is persisted during one invocation (the trace), on the finally stored row,
and in the returned result, processedMessages = created + updated + errors,
provided the row the invocation starts from satisfies it; a fresh run starts
at 0 = 0 + 0 + 0 and resuming adopts the stored row unchanged, so the
equality carries across resumed invocations. -/
theorem sync_counter_invariant (inp : SyncInputs) (userId accountId newId : String)
    (progressRecord : SyncProgressRow) (isResuming : Bool) (mdb : List Message)
    (sdb : List SenderStat) (out : LoopSt × SyncResponse)
    (hout : runSyncChunk inp userId accountId progressRecord isResuming mdb sdb = out)
    (hinv : progressRecord.processedMessages =
      progressRecord.created + progressRecord.updated + progressRecord.errors) :
    (∀ r ∈ out.1.trace, r.processedMessages = r.created + r.updated + r.errors) ∧
    out.1.row.processedMessages =
      out.1.row.created + out.1.row.updated + out.1.row.errors ∧
    out.2.synced = out.2.created + out.2.updated + out.2.errors ∧
    ((startSync none userId accountId newId).1.processedMessages = 0 ∧
      (startSync none userId accountId newId).1.created = 0 ∧
      (startSync none userId accountId newId).1.updated = 0 ∧
      (startSync none userId accountId newId).1.errors = 0) ∧
    startSync (some progressRecord) userId accountId newId = (progressRecord, true) := by
  subst hout
  refine ⟨?_, ?_, ?_, ⟨rfl, rfl, rfl, rfl⟩, rfl⟩ <;>
    · simp only [runSyncChunk]
      by_cases hempty : inp.page.messages.isEmpty
      · rw [if_pos hempty]
        dsimp only
        first
        | (intro r hr
           have : r = { progressRecord with
                        status := SyncStatus.completed
                        completedAt := some inp.now } := by simpa using hr
           subst this
           exact hinv)
        | exact hinv
      · rw [if_neg hempty]
        have hinv0 : loopInv
            { row := progressRecord, trace := [], messagesDb := mdb, senderStatsDb := sdb,
              created := progressRecord.created, updated := progressRecord.updated,
              errors := progressRecord.errors,
              processed := progressRecord.processedMessages,
              processedInThisBatch := 0 } := by
          refine ⟨hinv, hinv, ?_⟩
          intro r hr
          simp at hr
        rcases hl : syncLoop inp userId accountId inp.page.nextPageToken
            (if !isResuming && progressRecord.totalMessages == 0 then
              inp.page.messages.length
             else progressRecord.totalMessages)
            (inp.page.messages.take MESSAGES_PER_CHUNK) 0
            { row := progressRecord, trace := [], messagesDb := mdb, senderStatsDb := sdb,
              created := progressRecord.created, updated := progressRecord.updated,
              errors := progressRecord.errors,
              processed := progressRecord.processedMessages,
              processedInThisBatch := 0 } with s | sr
        · obtain ⟨hs1, hs2, hs3⟩ :=
            (syncLoop_inv inp userId accountId inp.page.nextPageToken _ _ 0 _ hinv0).1 s hl
          dsimp only
          rcases htok : inp.page.nextPageToken with _ | t
          · dsimp only
            first
            | (intro r hr
               rcases List.mem_append.mp hr with h' | h'
               · rcases List.mem_append.mp h' with h'' | h''
                 · exact hs3 r h''
                 · have : r.processedMessages = r.created + r.updated + r.errors := by
                     have hr' : r = { s.row with
                                      processedMessages := s.processed
                                      created := s.created
                                      updated := s.updated
                                      errors := s.errors
                                      nextPageToken := none } := by simpa using h''
                     subst hr'
                     exact hs1
                   exact this
               · have hr' : r = { { s.row with
                                    processedMessages := s.processed
                                    created := s.created
                                    updated := s.updated
                                    errors := s.errors
                                    nextPageToken := none } with
                                  status := SyncStatus.completed
                                  completedAt := some inp.now } := by simpa using h'
                 subst hr'
                 exact hs1)
            | exact hs1
          · dsimp only
            first
            | (intro r hr
               rcases List.mem_append.mp hr with h' | h'
               · exact hs3 r h'
               · have hr' : r = { s.row with
                                  processedMessages := s.processed
                                  created := s.created
                                  updated := s.updated
                                  errors := s.errors
                                  nextPageToken := some t } := by simpa using h'
                 subst hr'
                 exact hs1)
            | exact hs1
        · obtain ⟨s', resp⟩ := sr
          obtain ⟨⟨hs1, hs2, hs3⟩, hresp⟩ :=
            (syncLoop_inv inp userId accountId inp.page.nextPageToken _ _ 0 _ hinv0).2
              s' resp hl
          dsimp only
          first
          | exact hs3
          | exact hs2
          | exact hresp

/-- C2 counterexample: a page that returned one item but no continuation
token.  The claim's disjunct "…or the page returned any items" predicts
hasMore = true with status still in_progress; the code instead marks the
run completed and returns no hasMore field. -/
theorem sync_hasMore_counterexample :
    syncFixtureLastPage.page.messages ≠ [] ∧
    syncFixtureLastPage.page.nextPageToken = none ∧
    (runSyncChunk syncFixtureLastPage "u" "a"
        (startSync none "u" "a" "p1").1 false [] []).1.row.status =
      SyncStatus.completed ∧
    (runSyncChunk syncFixtureLastPage "u" "a"
        (startSync none "u" "a" "p1").1 false [] []).2.hasMore = none := by
  refine ⟨by decide, by decide, by decide, by decide⟩

/-- C2 (amended): for an invocation that finishes its sub-chunk without
hitting the time budget — counters and continuation token persisted — the
result reports hasMore = true with the row left in_progress exactly when
the continuation token is non-empty; when no continuation token remains
(and also when the page came back empty) the row is marked completed with
completedAt set and the stored counters equal the reported ones.  The
claim's extra disjunct "or the page returned any items" does not hold. -/
theorem sync_completion_contract (inp : SyncInputs) (userId accountId : String)
    (progressRecord : SyncProgressRow) (isResuming : Bool) (mdb : List Message)
    (sdb : List SenderStat) (out : LoopSt × SyncResponse)
    (hout : runSyncChunk inp userId accountId progressRecord isResuming mdb sdb = out)
    (hstatus : progressRecord.status = SyncStatus.in_progress)
    (hclock : ∀ j, j < (inp.page.messages.take MESSAGES_PER_CHUNK).length →
      inp.clock j ≤ maxExecutionTime) :
    (inp.page.messages = [] →
      out.1.row.status = SyncStatus.completed ∧
      out.1.row.completedAt = some inp.now ∧
      out.2.hasMore = none ∧
      out.2.synced = progressRecord.processedMessages) ∧
    (inp.page.messages ≠ [] →
      (∀ t, inp.page.nextPageToken = some t →
        out.2.hasMore = some true ∧
        out.1.row.status = SyncStatus.in_progress ∧
        out.1.row.nextPageToken = some t ∧
        out.1.row.processedMessages = out.2.synced ∧
        out.1.row.created = out.2.created ∧
        out.1.row.updated = out.2.updated ∧
        out.1.row.errors = out.2.errors) ∧
      (inp.page.nextPageToken = none →
        out.1.row.status = SyncStatus.completed ∧
        out.1.row.completedAt = some inp.now ∧
        out.2.hasMore = none ∧
        out.1.row.processedMessages = out.2.synced ∧
        out.1.row.created = out.2.created ∧
        out.1.row.updated = out.2.updated ∧
        out.1.row.errors = out.2.errors)) := by
  subst hout
  constructor
  · intro hempty
    simp only [runSyncChunk]
    rw [if_pos (by simp [hempty])]
    exact ⟨rfl, rfl, rfl, rfl⟩
  · intro hne
    have hloop := syncLoop_no_timeout inp userId accountId inp.page.nextPageToken
      (if !isResuming && progressRecord.totalMessages == 0 then inp.page.messages.length
       else progressRecord.totalMessages)
      (inp.page.messages.take MESSAGES_PER_CHUNK) 0
      { row := progressRecord, trace := [], messagesDb := mdb, senderStatsDb := sdb,
        created := progressRecord.created, updated := progressRecord.updated,
        errors := progressRecord.errors, processed := progressRecord.processedMessages,
        processedInThisBatch := 0 }
      (fun j hj => by simpa using hclock j hj)
    constructor
    · intro t htok
      simp only [runSyncChunk]
      rw [if_neg (by simp [List.isEmpty_iff, hne]), hloop, htok]
      dsimp only
      refine ⟨rfl, ?_, rfl, rfl, rfl, rfl, rfl⟩
      rw [foldl_syncItemStep_row_status]
      exact hstatus
    · intro htok
      simp only [runSyncChunk]
      rw [if_neg (by simp [List.isEmpty_iff, hne]), hloop, htok]
      exact ⟨rfl, rfl, rfl, rfl, rfl, rfl, rfl⟩

/-- Concrete completion-contract run: one item, token present, ample budget:
hasMore is reported and the row stays in_progress with the new token. -/
theorem sync_completion_contract_witness :
    (runSyncChunk syncFixtureMorePages "u" "a"
        (startSync none "u" "a" "p1").1 false [] []).2.hasMore = some true ∧
    (runSyncChunk syncFixtureMorePages "u" "a"
        (startSync none "u" "a" "p1").1 false [] []).1.row.status =
      SyncStatus.in_progress ∧
    (runSyncChunk syncFixtureMorePages "u" "a"
        (startSync none "u" "a" "p1").1 false [] []).1.row.nextPageToken =
      some "tok2" := by
  have h := sync_completion_contract syncFixtureMorePages "u" "a"
    (startSync none "u" "a" "p1").1 false [] [] _ rfl (by decide)
    (fun j hj => Nat.zero_le maxExecutionTime)
  obtain ⟨h1, h2, h3, _, _, _, _⟩ := (h.2 (by decide)).1 "tok2" (by decide)
  exact ⟨h1, h2, h3⟩

/-- Concrete timeout run: budget exhausted before the first item of a
one-message page with a stored token; hasMore reflects the token and the
run stays in_progress with nothing processed. -/
theorem sync_timeout_budget_contract_witness :
    (runSyncChunk syncFixtureTimeout "u" "a"
        (startSync none "u" "a" "p1").1 false [] []).2.hasMore = some true ∧
    (runSyncChunk syncFixtureTimeout "u" "a"
        (startSync none "u" "a" "p1").1 false [] []).1.row.status =
      SyncStatus.in_progress ∧
    (runSyncChunk syncFixtureTimeout "u" "a"
        (startSync none "u" "a" "p1").1 false [] []).2.synced = 0 := by
  have h := sync_timeout_budget_contract syncFixtureTimeout "u" "a"
    (startSync none "u" "a" "p1").1 false [] [] 0 (by decide) (by decide) (by decide)
    (fun j hj => absurd hj (Nat.not_lt_zero j)) (by decide)
  obtain ⟨_, _, hsync, hmore, hstat, _⟩ := h.2.2
  exact ⟨hmore, hstat, hsync⟩

/-- Concrete counter reconciliation: the empty-page completion run reports
reconciled counters and stores a reconciled row. -/
theorem sync_counter_invariant_witness :
    (∀ r ∈ (runSyncChunk
        { page := { messages := [], nextPageToken := none },
          meta := fun _ => Except.error (), threadReply := fun _ => false,
          clock := fun _ => 0, freshId := fun _ => "id0", now := 7 } "u" "a"
        (startSync none "u" "a" "p1").1 false [] []).1.trace,
      r.processedMessages = r.created + r.updated + r.errors) ∧
    (runSyncChunk
        { page := { messages := [], nextPageToken := none },
          meta := fun _ => Except.error (), threadReply := fun _ => false,
          clock := fun _ => 0, freshId := fun _ => "id0", now := 7 } "u" "a"
        (startSync none "u" "a" "p1").1 false [] []).2.synced =
      (runSyncChunk
        { page := { messages := [], nextPageToken := none },
          meta := fun _ => Except.error (), threadReply := fun _ => false,
          clock := fun _ => 0, freshId := fun _ => "id0", now := 7 } "u" "a"
        (startSync none "u" "a" "p1").1 false [] []).2.created +
      (runSyncChunk
        { page := { messages := [], nextPageToken := none },
          meta := fun _ => Except.error (), threadReply := fun _ => false,
          clock := fun _ => 0, freshId := fun _ => "id0", now := 7 } "u" "a"
        (startSync none "u" "a" "p1").1 false [] []).2.updated +
      (runSyncChunk
        { page := { messages := [], nextPageToken := none },
          meta := fun _ => Except.error (), threadReply := fun _ => false,
          clock := fun _ => 0, freshId := fun _ => "id0", now := 7 } "u" "a"
        (startSync none "u" "a" "p1").1 false [] []).2.errors := by
  have h := sync_counter_invariant
    { page := { messages := [], nextPageToken := none },
      meta := fun _ => Except.error (), threadReply := fun _ => false,
      clock := fun _ => 0, freshId := fun _ => "id0", now := 7 } "u" "a" "p2"
    (startSync none "u" "a" "p1").1 false [] [] _ rfl (by decide)
  exact ⟨h.1, h.2.2.1⟩

lemma find?_updateMessageRow (mdb : List Message) (x y : String)
    (f : Message → Message) (hf : ∀ m, (f m).id = m.id) :
    (updateMessageRow mdb y f).find? (fun m => m.id == x) =
      (mdb.find? (fun m => m.id == x)).map (fun m => if m.id == y then f m else m) := by
  induction mdb with
  | nil => rfl
  | cons hd tl ih =>
    unfold updateMessageRow at ih ⊢
    simp only [List.map_cons]
    by_cases h : hd.id == x
    · have h2 : ((if hd.id == y then f hd else hd).id == x) = true := by
        by_cases hy : hd.id == y
        · rw [if_pos hy, hf hd]
          exact h
        · rw [if_neg hy]
          exact h
      rw [List.find?_cons, List.find?_cons, h, h2]
      rfl
    · have h2 : ((if hd.id == y then f hd else hd).id == x) = false := by
        by_cases hy : hd.id == y
        · rw [if_pos hy, hf hd]
          simpa using h
        · rw [if_neg hy]
          simpa using h
      have h' : (hd.id == x) = false := by simpa using h
      rw [List.find?_cons, List.find?_cons, h', h2]
      exact ih

lemma find?_updateMessageRow_ne (mdb : List Message) {x y : String}
    (f : Message → Message) (hf : ∀ m, (f m).id = m.id) (hxy : x ≠ y) :
    (updateMessageRow mdb y f).find? (fun m => m.id == x) =
      mdb.find? (fun m => m.id == x) := by
  rw [find?_updateMessageRow mdb x y f hf]
  rcases hfind : mdb.find? (fun m => m.id == x) with _ | m
  · rw [hfind]
    rfl
  · have hid : m.id = x := by
      have := List.find?_some hfind
      simpa using this
    rw [hfind]
    show some (if m.id == y then f m else m) = some m
    rw [if_neg (by rw [hid]; simpa using hxy)]

lemma find?_updateMessageRow_self (mdb : List Message) {x : String} {m0 : Message}
    (f : Message → Message) (hf : ∀ m, (f m).id = m.id)
    (hfind : mdb.find? (fun m => m.id == x) = some m0) :
    (updateMessageRow mdb x f).find? (fun m => m.id == x) = some (f m0) := by
  rw [find?_updateMessageRow mdb x x f hf, hfind]
  have hid : m0.id = x := by
    have := List.find?_some hfind
    simpa using this
  show some (if m0.id == x then f m0 else m0) = some (f m0)
  rw [if_pos (by simp [hid])]

lemma find?_eq_of_mem_nodup {mdb : List Message} {m : Message}
    (hmem : m ∈ mdb) (hnodup : (mdb.map (fun m' => m'.id)).Nodup) :
    mdb.find? (fun m' => m'.id == m.id) = some m := by
  induction mdb with
  | nil => simp at hmem
  | cons hd tl ih =>
    rcases List.mem_cons.mp hmem with hm | hm
    · subst hm
      rw [List.find?_cons_of_pos _ (by simp)]
    · have hnodup' : hd.id ∉ tl.map (fun m' => m'.id) ∧
          (tl.map (fun m' => m'.id)).Nodup := by
        rw [List.map_cons] at hnodup
        exact List.nodup_cons.mp hnodup
      have hne : hd.id ≠ m.id := by
        intro hc
        have h1 : hd.id ∈ tl.map (fun m' => m'.id) := by
          rw [hc]
          exact List.mem_map.mpr ⟨m, hm, rfl⟩
        exact hnodup'.1 h1
      rw [List.find?_cons_of_neg _ (by simpa using hne)]
      exact ih hm hnodup'.2

lemma confirmDeleteStep_find_ne (userId batchId : String)
    (trash : String → Except String Unit) (st : ConfirmRunState)
    {messageId x : String} (hx : x ≠ messageId) :
    (confirmDeleteStep userId batchId trash st messageId).messagesDb.find?
      (fun m => m.id == x) = st.messagesDb.find? (fun m => m.id == x) := by
  unfold confirmDeleteStep
  split
  · rfl
  · dsimp only
    split
    · rfl
    · split
      · exact find?_updateMessageRow_ne st.messagesDb _ (fun m => rfl) hx
      · split <;> rfl

lemma keepCandidateStep_find_ne (userId batchId : String) (st : ConfirmRunState)
    {candidate : CandidateRef} {x : String} (hx : x ≠ candidate.id) :
    (keepCandidateStep userId batchId st candidate).messagesDb.find?
      (fun m => m.id == x) = st.messagesDb.find? (fun m => m.id == x) := by
  unfold keepCandidateStep
  dsimp only
  split
  · exact find?_updateMessageRow_ne st.messagesDb _ (fun m => rfl) hx
  · exact find?_updateMessageRow_ne st.messagesDb _ (fun m => rfl) hx

lemma confirmDeleteStep_mono (userId batchId : String)
    (trash : String → Except String Unit) (st : ConfirmRunState) (messageId : String) :
    (∃ l, (confirmDeleteStep userId batchId trash st messageId).items = st.items ++ l) ∧
    (∃ l, (confirmDeleteStep userId batchId trash st messageId).events = st.events ++ l) := by
  unfold confirmDeleteStep
  split
  · exact ⟨⟨[], by simp⟩, ⟨[], by simp⟩⟩
  · dsimp only
    split
    · exact ⟨⟨[], by simp⟩, ⟨[], by simp⟩⟩
    · split
      · exact ⟨⟨_, rfl⟩, ⟨_, rfl⟩⟩
      · split
        · exact ⟨⟨_, rfl⟩, ⟨[], by simp⟩⟩
        · exact ⟨⟨[], by simp⟩, ⟨[], by simp⟩⟩

lemma keepCandidateStep_mono (userId batchId : String) (st : ConfirmRunState)
    (candidate : CandidateRef) :
    (∃ l, (keepCandidateStep userId batchId st candidate).items = st.items ++ l) ∧
    (∃ l, (keepCandidateStep userId batchId st candidate).events = st.events ++ l) := by
  unfold keepCandidateStep
  dsimp only
  split
  · exact ⟨⟨_, rfl⟩, ⟨_, rfl⟩⟩
  · exact ⟨⟨_, rfl⟩, ⟨[], by simp⟩⟩

lemma confirmDeleteStep_self (u b : String) (t : String → Except String Unit)
    (st : ConfirmRunState) (mid : String) (m0 : Message)
    (hfind : st.messagesDb.find? (fun m => m.id == mid) = some m0)
    (hnotdel : m0.isDeletedByApp = false)
    (htrash : t m0.gmailMessageId = Except.ok ()) :
    ((confirmDeleteStep u b t st mid).messagesDb.find? (fun m => m.id == mid) =
      some { m0 with isDeletedByApp := true, isManuallyDeleted := true }) ∧
    ({ deleteBatchId := b, messageId := m0.id, gmailMessageId := m0.gmailMessageId,
       decision := DeleteDecision.deleted,
       reason := none } : DeleteBatchItemRow) ∈ (confirmDeleteStep u b t st mid).items ∧
    LearnEvent.deletionRecorded u mid m0.sender ∈ (confirmDeleteStep u b t st mid).events := by
  unfold confirmDeleteStep
  rw [hfind]
  dsimp only
  rw [if_neg (by simp [hnotdel]), htrash]
  dsimp only
  refine ⟨?_, by simp, by simp⟩
  exact find?_updateMessageRow_self st.messagesDb _ (fun m => rfl) hfind

lemma keepCandidateStep_self (u b : String) (st : ConfirmRunState) (c : CandidateRef)
    (m0 : Message)
    (hfind : st.messagesDb.find? (fun m => m.id == c.id) = some m0) :
    ((keepCandidateStep u b st c).messagesDb.find? (fun m => m.id == c.id) =
      some { m0 with isManuallyKept := true, isDeleteCandidate := false }) ∧
    ({ deleteBatchId := b, messageId := c.id, gmailMessageId := c.gmailMessageId,
       decision := DeleteDecision.skipped,
       reason := some "User deselected" } : DeleteBatchItemRow) ∈
      (keepCandidateStep u b st c).items ∧
    LearnEvent.keepRecorded u c.id m0.sender ∈ (keepCandidateStep u b st c).events := by
  have hupd := find?_updateMessageRow_self st.messagesDb
    (fun m => { m with isManuallyKept := true, isDeleteCandidate := false })
    (fun m => rfl) hfind
  unfold keepCandidateStep
  dsimp only
  rw [hupd]
  dsimp only
  exact ⟨hupd, by simp, by simp⟩

lemma foldConfirm_frame (u b : String) (t : String → Except String Unit) :
    ∀ (ids : List String) (st : ConfirmRunState) (x : String), x ∉ ids →
      ((ids.foldl (confirmDeleteStep u b t) st).messagesDb.find? (fun m => m.id == x)) =
        st.messagesDb.find? (fun m => m.id == x) := by
  intro ids
  induction ids with
  | nil =>
    intro st x h
    rfl
  | cons hd tl ih =>
    intro st x h
    rw [List.foldl_cons, ih _ x (fun hc => h (List.mem_cons.mpr (Or.inr hc)))]
    exact confirmDeleteStep_find_ne u b t st (fun hc => h (by simp [hc]))

lemma foldKeep_frame (u b : String) :
    ∀ (cands : List CandidateRef) (st : ConfirmRunState) (x : String),
      x ∉ cands.map (fun c => c.id) →
      ((cands.foldl (keepCandidateStep u b) st).messagesDb.find? (fun m => m.id == x)) =
        st.messagesDb.find? (fun m => m.id == x) := by
  intro cands
  induction cands with
  | nil =>
    intro st x h
    rfl
  | cons hd tl ih =>
    intro st x h
    rw [List.foldl_cons, ih _ x (fun hc => h (by simp; right; simpa using hc))]
    exact keepCandidateStep_find_ne u b st (fun hc => h (by simp [hc]))

lemma foldConfirm_items_mono (u b : String) (t : String → Except String Unit) :
    ∀ (ids : List String) (st : ConfirmRunState) (item : DeleteBatchItemRow),
      item ∈ st.items → item ∈ ((ids.foldl (confirmDeleteStep u b t) st)).items := by
  intro ids
  induction ids with
  | nil =>
    intro st item h
    exact h
  | cons hd tl ih =>
    intro st item h
    rw [List.foldl_cons]
    apply ih
    obtain ⟨⟨l, hl⟩, _⟩ := confirmDeleteStep_mono u b t st hd
    rw [hl]
    exact List.mem_append_left l h

lemma foldConfirm_events_mono (u b : String) (t : String → Except String Unit) :
    ∀ (ids : List String) (st : ConfirmRunState) (ev : LearnEvent),
      ev ∈ st.events → ev ∈ ((ids.foldl (confirmDeleteStep u b t) st)).events := by
  intro ids
  induction ids with
  | nil =>
    intro st ev h
    exact h
  | cons hd tl ih =>
    intro st ev h
    rw [List.foldl_cons]
    apply ih
    obtain ⟨_, ⟨l, hl⟩⟩ := confirmDeleteStep_mono u b t st hd
    rw [hl]
    exact List.mem_append_left l h

lemma foldKeep_items_mono (u b : String) :
    ∀ (cands : List CandidateRef) (st : ConfirmRunState) (item : DeleteBatchItemRow),
      item ∈ st.items → item ∈ ((cands.foldl (keepCandidateStep u b) st)).items := by
  intro cands
  induction cands with
  | nil =>
    intro st item h
    exact h
  | cons hd tl ih =>
    intro st item h
    rw [List.foldl_cons]
    apply ih
    obtain ⟨⟨l, hl⟩, _⟩ := keepCandidateStep_mono u b st hd
    rw [hl]
    exact List.mem_append_left l h

lemma foldKeep_events_mono (u b : String) :
    ∀ (cands : List CandidateRef) (st : ConfirmRunState) (ev : LearnEvent),
      ev ∈ st.events → ev ∈ ((cands.foldl (keepCandidateStep u b) st)).events := by
  intro cands
  induction cands with
  | nil =>
    intro st ev h
    exact h
  | cons hd tl ih =>
    intro st ev h
    rw [List.foldl_cons]
    apply ih
    obtain ⟨_, ⟨l, hl⟩⟩ := keepCandidateStep_mono u b st hd
    rw [hl]
    exact List.mem_append_left l h

lemma phaseA_deleted (u b : String) (t : String → Except String Unit) :
    ∀ (ids : List String) (st : ConfirmRunState) (mid : String) (m0 : Message),
      ids.Nodup → mid ∈ ids →
      st.messagesDb.find? (fun m => m.id == mid) = some m0 →
      m0.isDeletedByApp = false →
      t m0.gmailMessageId = Except.ok () →
      (((ids.foldl (confirmDeleteStep u b t) st).messagesDb.find?
          (fun m => m.id == mid)) =
        some { m0 with isDeletedByApp := true, isManuallyDeleted := true }) ∧
      ({ deleteBatchId := b, messageId := m0.id, gmailMessageId := m0.gmailMessageId,
         decision := DeleteDecision.deleted, reason := none } : DeleteBatchItemRow) ∈
        ((ids.foldl (confirmDeleteStep u b t) st)).items ∧
      LearnEvent.deletionRecorded u mid m0.sender ∈
        ((ids.foldl (confirmDeleteStep u b t) st)).events := by
  intro ids
  induction ids with
  | nil =>
    intro st mid m0 _ hmem
    simp at hmem
  | cons hd tl ih =>
    intro st mid m0 hnodup hmem hfind hnotdel htrash
    rw [List.foldl_cons]
    rcases List.mem_cons.mp hmem with hm | hm
    · subst hm
      obtain ⟨hs1, hs2, hs3⟩ := confirmDeleteStep_self u b t st mid m0 hfind hnotdel htrash
      have hmidnotin : mid ∉ tl := (List.nodup_cons.mp hnodup).1
      refine ⟨?_, ?_, ?_⟩
      · rw [foldConfirm_frame u b t tl _ mid hmidnotin]
        exact hs1
      · exact foldConfirm_items_mono u b t tl _ _ hs2
      · exact foldConfirm_events_mono u b t tl _ _ hs3
    · have hne : mid ≠ hd := by
        intro hc
        subst hc
        exact (List.nodup_cons.mp hnodup).1 hm
      have hfind' : (confirmDeleteStep u b t st hd).messagesDb.find?
          (fun m => m.id == mid) = some m0 := by
        rw [confirmDeleteStep_find_ne u b t st hne]
        exact hfind
      exact ih _ mid m0 (List.nodup_cons.mp hnodup).2 hm hfind' hnotdel htrash

lemma phaseB_kept (u b : String) :
    ∀ (cands : List CandidateRef) (st : ConfirmRunState) (c : CandidateRef) (m0 : Message),
      (cands.map (fun c' => c'.id)).Nodup → c ∈ cands →
      st.messagesDb.find? (fun m => m.id == c.id) = some m0 →
      (((cands.foldl (keepCandidateStep u b) st).messagesDb.find?
          (fun m => m.id == c.id)) =
        some { m0 with isManuallyKept := true, isDeleteCandidate := false }) ∧
      ({ deleteBatchId := b, messageId := c.id, gmailMessageId := c.gmailMessageId,
         decision := DeleteDecision.skipped,
         reason := some "User deselected" } : DeleteBatchItemRow) ∈
        ((cands.foldl (keepCandidateStep u b) st)).items ∧
      LearnEvent.keepRecorded u c.id m0.sender ∈
        ((cands.foldl (keepCandidateStep u b) st)).events := by
  intro cands
  induction cands with
  | nil =>
    intro st c m0 _ hmem
    simp at hmem
  | cons hd tl ih =>
    intro st c m0 hnodup hmem hfind
    rw [List.map_cons] at hnodup
    rw [List.foldl_cons]
    rcases List.mem_cons.mp hmem with hm | hm
    · subst hm
      obtain ⟨hs1, hs2, hs3⟩ := keepCandidateStep_self u b st c m0 hfind
      have hnotin : c.id ∉ tl.map (fun c' => c'.id) := (List.nodup_cons.mp hnodup).1
      refine ⟨?_, ?_, ?_⟩
      · rw [foldKeep_frame u b tl _ c.id hnotin]
        exact hs1
      · exact foldKeep_items_mono u b tl _ _ hs2
      · exact foldKeep_events_mono u b tl _ _ hs3
    · have hne : c.id ≠ hd.id := by
        intro hc
        apply (List.nodup_cons.mp hnodup).1
        rw [← hc]
        exact List.mem_map.mpr ⟨c, hm, rfl⟩
      have hfind' : (keepCandidateStep u b st hd).messagesDb.find?
          (fun m => m.id == c.id) = some m0 := by
        rw [keepCandidateStep_find_ne u b st hne]
        exact hfind
      exact ih _ c m0 (List.nodup_cons.mp hnodup).2 hm hfind'

lemma candidate_find {mdb : List Message} {userId accountId : String} {c : CandidateRef}
    (hnodup : (mdb.map (fun m => m.id)).Nodup)
    (hc : c ∈ allCandidatesOf mdb userId accountId) :
    ∃ m0, mdb.find? (fun m => m.id == c.id) = some m0 ∧ m0.id = c.id ∧
      m0.gmailMessageId = c.gmailMessageId ∧ m0.sender = c.sender ∧
      m0.isDeleteCandidate = true ∧ m0.isDeletedByApp = false := by
  unfold allCandidatesOf at hc
  obtain ⟨m0, hm0mem, hm0eq⟩ := List.mem_map.mp hc
  have hmem : m0 ∈ mdb := (List.mem_filter.mp hm0mem).1
  have hp := (List.mem_filter.mp hm0mem).2
  simp only [Bool.and_eq_true, beq_iff_eq, Bool.not_eq_true'] at hp
  subst hm0eq
  refine ⟨m0, ?_, rfl, rfl, rfl, hp.1.2, hp.2⟩
  exact find?_eq_of_mem_nodup hmem hnodup

/-- C8: for a confirm-delete call whose selected ids S are drawn from the
current candidate set C (message ids unique, S a set), every candidate not
in S ends manually kept and no longer a candidate, with a recordKeep call
issued for it and a `skipped` batch item appended; and every selected id
whose trash call succeeded ends deleted-by-app and manually deleted, with a
recordDeletion call issued and a `deleted` batch item appended.  Each
conclusion holds independently of the trash outcomes of the other ids, so
an adapter error on one id does not stop the processing of the rest. -/
theorem confirm_delete_contract (userId accountId batchId : String)
    (messageIds : List String) (trash : String → Except String Unit) (now : Nat)
    (mdb : List Message) (sdb : List SenderStat)
    (out : ConfirmRunState × DeleteBatchRow × ConfirmResponse)
    (hout : confirmDeletePOST userId accountId batchId messageIds trash now mdb sdb =
      some out)
    (hnodupDb : (mdb.map (fun m => m.id)).Nodup)
    (hnodupS : messageIds.Nodup)
    (hS : ∀ mid ∈ messageIds,
      mid ∈ (allCandidatesOf mdb userId accountId).map (fun c => c.id)) :
    (∀ c ∈ allCandidatesOf mdb userId accountId, c.id ∉ messageIds →
      ∃ m, out.1.messagesDb.find? (fun m' => m'.id == c.id) = some m ∧
        m.isManuallyKept = true ∧ m.isDeleteCandidate = false ∧
        (∃ snd, LearnEvent.keepRecorded userId c.id snd ∈ out.1.events) ∧
        ∃ item ∈ out.1.items, item.messageId = c.id ∧
          item.decision = DeleteDecision.skipped) ∧
    (∀ mid ∈ messageIds, ∀ m0, mdb.find? (fun m => m.id == mid) = some m0 →
      trash m0.gmailMessageId = Except.ok () →
      ∃ m, out.1.messagesDb.find? (fun m' => m'.id == mid) = some m ∧
        m.isDeletedByApp = true ∧ m.isManuallyDeleted = true ∧
        LearnEvent.deletionRecorded userId mid m0.sender ∈ out.1.events ∧
        ∃ item ∈ out.1.items, item.messageId = mid ∧
          item.decision = DeleteDecision.deleted) := by
  by_cases hne : messageIds = []
  · rw [confirmDeletePOST, if_pos hne] at hout
    exact absurd hout (by simp)
  · rw [confirmDeletePOST, if_neg hne] at hout
    have hout' := Option.some.inj hout
    subst hout'
    have hdesel_nodup :
        (((allCandidatesOf mdb userId accountId).filter
            (fun c => !(messageIds.contains c.id))).map (fun c' => c'.id)).Nodup := by
      have hcand_nodup :
          ((allCandidatesOf mdb userId accountId).map (fun c' => c'.id)).Nodup := by
        unfold allCandidatesOf
        rw [List.map_map]
        have hcomp : ((fun c : CandidateRef => c.id) ∘ (fun m : Message =>
            ({ id := m.id, gmailMessageId := m.gmailMessageId,
               sender := m.sender } : CandidateRef))) = fun m : Message => m.id := rfl
        rw [hcomp]
        exact hnodupDb.sublist ((List.filter_sublist mdb).map _)
      exact hcand_nodup.sublist ((List.filter_sublist _).map _)
    constructor
    · intro c hc hnotin
      obtain ⟨m0, hfind, hid, hgm, hsender, hcand, hdel⟩ := candidate_find hnodupDb hc
      have hfindA :
          ((messageIds.foldl (confirmDeleteStep userId batchId trash)
            { messagesDb := mdb, senderStatsDb := sdb, items := [], events := [],
              deletedCount := 0, skippedCount := 0, errorCount := 0,
              errors := [] }).messagesDb.find? (fun m => m.id == c.id)) = some m0 := by
        rw [foldConfirm_frame userId batchId trash messageIds _ c.id hnotin]
        exact hfind
      have hcdes : c ∈ (allCandidatesOf mdb userId accountId).filter
          (fun c' => !(messageIds.contains c'.id)) := by
        refine List.mem_filter.mpr ⟨hc, ?_⟩
        simp [hnotin]
      obtain ⟨hB1, hB2, hB3⟩ := phaseB_kept userId batchId _ _ c m0 hdesel_nodup hcdes hfindA
      exact ⟨{ m0 with isManuallyKept := true, isDeleteCandidate := false },
        hB1, rfl, rfl, ⟨m0.sender, hB3⟩, ⟨_, hB2, rfl, rfl⟩⟩
    · intro mid hmid m0 hfindm htrash
      obtain ⟨c, hcmem, hcid⟩ : ∃ c ∈ allCandidatesOf mdb userId accountId, c.id = mid := by
        obtain ⟨c, hcmem, hcid⟩ := List.mem_map.mp (hS mid hmid)
        exact ⟨c, hcmem, hcid⟩
      obtain ⟨m1, hfind1, hid1, hgm1, hsender1, hcand1, hdel1⟩ :=
        candidate_find hnodupDb hcmem
      rw [hcid] at hfind1
      rw [hfindm] at hfind1
      have hm10 : m0 = m1 := Option.some.inj hfind1
      have hdel0 : m0.isDeletedByApp = false := by
        rw [hm10]
        exact hdel1
      have hm0id : m0.id = mid := by
        rw [hm10, hid1, hcid]
      obtain ⟨hA1, hA2, hA3⟩ := phaseA_deleted userId batchId trash messageIds
        { messagesDb := mdb, senderStatsDb := sdb, items := [], events := [],
          deletedCount := 0, skippedCount := 0, errorCount := 0, errors := [] }
        mid m0 hnodupS hmid hfindm hdel0 htrash
      have hnotinB : mid ∉ ((allCandidatesOf mdb userId accountId).filter
          (fun c' => !(messageIds.contains c'.id))).map (fun c' => c'.id) := by
        intro hcon
        obtain ⟨c', hc'mem, hc'id⟩ := List.mem_map.mp hcon
        have hflt := (List.mem_filter.mp hc'mem).2
        rw [hc'id] at hflt
        simp only [Bool.not_eq_true'] at hflt
        have hmem2 : messageIds.contains mid = true := by
          simpa using hmid
        rw [hmem2] at hflt
        simp at hflt
      have hB1 : (((allCandidatesOf mdb userId accountId).filter
            (fun c' => !(messageIds.contains c'.id))).foldl
          (keepCandidateStep userId batchId)
          (messageIds.foldl (confirmDeleteStep userId batchId trash)
            { messagesDb := mdb, senderStatsDb := sdb, items := [], events := [],
              deletedCount := 0, skippedCount := 0, errorCount := 0,
              errors := [] })).messagesDb.find? (fun m => m.id == mid) =
          some { m0 with isDeletedByApp := true, isManuallyDeleted := true } := by
        rw [foldKeep_frame userId batchId _ _ mid hnotinB]
        exact hA1
      refine ⟨{ m0 with isDeletedByApp := true, isManuallyDeleted := true },
        hB1, rfl, rfl, ?_, ?_⟩
      · exact foldKeep_events_mono userId batchId _ _ _ hA3
      · exact ⟨_, foldKeep_items_mono userId batchId _ _ _ hA2, hm0id, rfl⟩

/-- Concrete confirm-delete run: id1 is selected and trashes cleanly, id2 is
implicitly kept. -/
theorem confirm_delete_contract_witness :
    (∃ m, confirmFixtureOut.1.messagesDb.find? (fun m' => m'.id == "id2") = some m ∧
      m.isManuallyKept = true ∧ m.isDeleteCandidate = false ∧
      (∃ snd, LearnEvent.keepRecorded "u" "id2" snd ∈ confirmFixtureOut.1.events) ∧
      ∃ item ∈ confirmFixtureOut.1.items, item.messageId = "id2" ∧
        item.decision = DeleteDecision.skipped) ∧
    (∃ m, confirmFixtureOut.1.messagesDb.find? (fun m' => m'.id == "id1") = some m ∧
      m.isDeletedByApp = true ∧ m.isManuallyDeleted = true ∧
      LearnEvent.deletionRecorded "u" "id1" "s1" ∈ confirmFixtureOut.1.events ∧
      ∃ item ∈ confirmFixtureOut.1.items, item.messageId = "id1" ∧
        item.decision = DeleteDecision.deleted) := by
  have h := confirm_delete_contract "u" "a" "b1" ["id1"] (fun _ => Except.ok ()) 5
    [msgFixture1, msgFixture2] [] confirmFixtureOut rfl (by decide) (by decide)
    (by decide)
  constructor
  · have hc2 : ({ id := "id2", gmailMessageId := "g2", sender := "s2" } : CandidateRef) ∈
        allCandidatesOf [msgFixture1, msgFixture2] "u" "a" := by decide
    exact h.1 _ hc2 (by decide)
  · exact h.2 "id1" (by decide) msgFixture1 (by decide) rfl
